import Mathlib

/-!
# A verification model of the `dbmap` Go library

This file gives a shallow embedding, in Lean 4, of the core of the `dbmap`
library (package `dbmap`): the converter registry (`RegisterMapper`), the
schema builder (`StructMapping` / `Mapping.mapStruct`), column-name inference
(`defaultDBName`), the row scanner (`Mapping.ScanRow`), the cursor consumers
(`Mapping.ScanOne`, `Mapping.ScanStream`, `Mapping.ScanAll`), the test-harness
cursor (`TestRow` from `testutil.go`), and the JSON converter
(`jsonScanner.Scan` / `jsonScanner.Value` from `json.go`).

Modelling conventions:
* `reflect.Type` values are modelled by the inductive `GoType`; struct field
  lists by `GoFields` (name, `db` tag, anonymous flag, field type, in
  declaration order).
* Go maps are modelled as association lists where an insert prepends the new
  pair; since lookups return the first hit, prepending has exactly the
  overwrite semantics of a Go map assignment.
* The Go `reflect.Value → reflect.Value` nesting closures built by `mapStruct`
  are first-order values: each closure built by the source is precisely
  "descend through this list of embedded-field names", so it is represented by
  that list (`[]` for the identity closure `noNesting`).
* Fallible Go functions return `Except`/result inductives; a Go runtime panic
  is a distinguished result constructor, never conflated with a returned
  `error`.
-/

namespace Dbmap

/-! ## Record type descriptors (the `reflect.Type` fragment `dbmap` inspects) -/

mutual

/-- The fragment of Go's `reflect.Type` that `dbmap` inspects: a type is
either a non-struct type (identified by its printed name, e.g. `"int"`)
or a struct with an ordered field list. -/
inductive GoType : Type where
  | prim (name : String) : GoType
  | struct (fields : GoFields) : GoType

/-- An ordered list of struct fields. Each field carries its Go name, the
value of its `db` struct tag (`""` when the tag is absent), whether it is an
embedded (anonymous) field, and its type. -/
inductive GoFields : Type where
  | nil : GoFields
  | cons (name : String) (tag : String) (anonymous : Bool) (ty : GoType)
      (rest : GoFields) : GoFields

end

/-! ## The converter registry (`Mapper`, `RegisterMapper`) -/

/-- A registered `Mapper`, seen from the schema builder: its `Accepts`
predicate over field types, plus a name identifying the concrete converter
(used where the source inspects the mapper's runtime type). The runtime
`Receive`/`Copy` behaviour is modelled at the scan level, not here. -/
structure MapperModel : Type where
  name : String
  accepts : GoType → Bool

/-- `RegisterMapper` prepends to the process-wide mapper list:
`mappers = append([]Mapper{mapper}, mappers...)`. The global slice is made
explicit as a parameter/return pair. -/
def RegisterMapper (mapper : MapperModel) (mappers : List MapperModel) :
    List MapperModel :=
  mapper :: mappers

/-- The registry obtained by performing the calls of `calls` in order,
starting from an empty mapper list. -/
def registryAfter (calls : List MapperModel) : List MapperModel :=
  calls.foldl (fun acc m => RegisterMapper m acc) []

/-- The mapper-selection loop of `mapStruct`:
`for _, mapper := range mappers { if mapper.Accepts(fieldType) { ... } }` —
the first mapper in slice order whose `Accepts` holds. -/
def findMapper (mappers : List MapperModel) (ty : GoType) : Option MapperModel :=
  match mappers with
  | [] => none
  | m :: rest => if m.accepts ty then some m else findMapper rest ty

/-! ## Column-name inference (`defaultDBName`, `fieldNameRe`) -/

/-- The character class `[A-Z]` of `fieldNameRe`. -/
def isUpper (c : Char) : Bool := 'A' ≤ c && c ≤ 'Z'

/-- All matches, left to right, of `fieldNameRe = ([A-Z]+)([^A-Z]*)` in a
character list, as pairs (first submatch, second submatch): a match starts at
each uppercase letter not already consumed, takes the maximal run of
uppercase letters, then the maximal run of non-uppercase characters.
Characters preceding the first uppercase letter belong to no match, exactly
as with `FindAllStringSubmatch`. -/
def tokenize : List Char → List (List Char × List Char)
  | [] => []
  | c :: cs =>
    if isUpper c then
      (c :: cs.takeWhile isUpper,
        (cs.dropWhile isUpper).takeWhile (fun d => !isUpper d)) ::
      tokenize ((cs.dropWhile isUpper).dropWhile (fun d => !isUpper d))
    else
      tokenize cs
termination_by l => l.length
decreasing_by
  · have h1 := (List.dropWhile_sublist (l := cs.dropWhile isUpper)
      (fun d => !isUpper d)).length_le
    have h2 := (List.dropWhile_sublist (l := cs) isUpper).length_le
    simp only [List.length_cons]
    omega
  · simp only [List.length_cons]
    omega

/-- The per-match body of `defaultDBName`'s loop: with `head = m[1]` and
`tail = m[2]`, if the uppercase run is longer than one character and is
followed by a non-empty tail, peel the run's last character off to start the
final token; every emitted token is lower-cased (`strings.ToLower`) with the
tail appended verbatim. -/
def matchParts (head tail : List Char) : List (List Char) :=
  if 1 < head.length && !tail.isEmpty then
    [head.dropLast.map Char.toLower,
      (head.drop (head.length - 1)).map Char.toLower ++ tail]
  else
    [head.map Char.toLower ++ tail]

/-- `defaultDBName`: tokenize the field name with `fieldNameRe`, split
acronym runs, lower-case, and join the parts with `"_"`. -/
def defaultDBName (fieldName : String) : String :=
  String.intercalate "_"
    (((tokenize fieldName.data).map fun m => matchParts m.1 m.2).flatten.map
      fun p => String.mk p)

/-! ## The schema (`Mapping`) and the schema builder (`StructMapping`) -/

/-- The `Mapping` struct. The three Go maps are association lists; an
assignment prepends, so lookups see the most recent binding, exactly like a
Go map write. `scanNesting` stores, per struct-field name, the list of
embedded-field names the source's nesting closure dereferences through. -/
structure Mapping : Type where
  structType : GoType
  dbToStruct : List (String × String)
  mapping : List (String × MapperModel)
  scanNesting : List (String × List String)

/-- Go map read `m[k]` (first binding wins, matching prepend-on-write). -/
def mapLookup {α : Type} (m : List (String × α)) (k : String) : Option α :=
  match m with
  | [] => none
  | (k', v) :: rest => if k' = k then some v else mapLookup rest k

/-- `Mapping.mapStruct`. Walks the fields in declaration order, threading the
mutated `Mapping` state; returns the state together with `some errorMessage`
where the Go method returns a non-nil error. The recursive call for an
embedded struct discards its error result, exactly as in the source
(`mapping.mapStruct(field.Type, ...)` with the returned error unused), while
the state mutations made by the recursive call persist. -/
def mapStruct (mappers : List MapperModel) (m : Mapping) (fields : GoFields)
    (nesting : List String) : Mapping × Option String :=
  match fields with
  | .nil => (m, none)
  | .cons name tag anonymous ty rest =>
    -- dbName := field.Tag.Get("db")
    if tag = "-" then
      -- explicitly unmapped, skip
      mapStruct mappers m rest nesting
    else
      let step := fun (dbName : String) =>
        match mapLookup m.dbToStruct dbName with
        | some _ => (m, some ("duplicate mapping for \"" ++ dbName ++ "\""))
        | none =>
          let m' : Mapping :=
            { m with
              dbToStruct := (dbName, name) :: m.dbToStruct
              scanNesting := (name, nesting) :: m.scanNesting }
          match findMapper mappers ty with
          | some mp =>
            mapStruct mappers { m' with mapping := (name, mp) :: m'.mapping }
              rest nesting
          | none => (m', some ("unsupported field: " ++ name))
      if tag = "" then
        match anonymous, ty with
        | true, .struct fs =>
          -- embedded struct: recurse; the returned error is discarded
          let inner := mapStruct mappers m fs (nesting ++ [name])
          mapStruct mappers inner.1 rest nesting
        | true, .prim _ => step (defaultDBName name)
        | false, _ => step (defaultDBName name)
      else
        step tag

/-- `StructMapping`: rejects non-struct types, then runs `mapStruct` from an
empty state with the identity nesting closure; a non-nil `mapStruct` error
discards the partial mapping. -/
def StructMapping (mappers : List MapperModel) (ty : GoType) :
    Except String Mapping :=
  match ty with
  | .prim name => .error ("argument is not a struct, actually is " ++ name)
  | .struct fs =>
    let m0 : Mapping := { structType := ty, dbToStruct := [], mapping := [],
                          scanNesting := [] }
    match mapStruct mappers m0 fs [] with
    | (_, some e) => .error e
    | (m, none) => .ok m

/-! ## Go values and the row scanner (`Mapping.ScanRow`) -/

/-- A Go scalar payload held by a non-struct field or produced by a cursor.
`zeroOf name` is the zero value of the non-struct type `name` (what
`reflect.New` produces for it). -/
inductive ScalarVal : Type where
  | int (n : Int) : ScalarVal
  | str (s : String) : ScalarVal
  | zeroOf (tyName : String) : ScalarVal
deriving DecidableEq, Repr

/-- A Go value of the shapes `dbmap` scans into: scalars and structs
(fields listed in declaration order). -/
inductive GoValue : Type where
  | scalar (v : ScalarVal) : GoValue
  | struct (fields : List (String × GoValue)) : GoValue

/-- `reflect.New(t)`'s pointee: the zero value of a type. -/
def zeroValue : GoType → GoValue
  | .prim name => .scalar (.zeroOf name)
  | .struct fs => .struct (zeroFields fs)
where
  zeroFields : GoFields → List (String × GoValue)
    | .nil => []
    | .cons name _ _ ty rest => (name, zeroValue ty) :: zeroFields rest

/-- `v.FieldByName(name)` on a struct value (shallowest field wins; `dbmap`
only reads direct fields of the struct the nesting closure resolved to). -/
def getField (v : GoValue) (name : String) : Option GoValue :=
  match v with
  | .scalar _ => none
  | .struct fs => mapLookup fs name

/-- Read the sub-value at a field path (empty path = the value itself). -/
def getPath (v : GoValue) : List String → Option GoValue
  | [] => some v
  | n :: rest =>
    match getField v n with
    | none => none
    | some v' => getPath v' rest

/-- Replace the direct field `name` of a struct value. A missing field or a
non-struct value is left unchanged (the source would panic there; no claim
depends on that path, see `buildReceivers` which guards the panics that do
matter). -/
def setFields (name : String) (nv : GoValue) :
    List (String × GoValue) → List (String × GoValue)
  | [] => []
  | (k, w) :: rest =>
    if k = name then (k, nv) :: setFields name nv rest
    else (k, w) :: setFields name nv rest

def setField (v : GoValue) (name : String) (nv : GoValue) : GoValue :=
  match v with
  | .scalar s => .scalar s
  | .struct fs => .struct (setFields name nv fs)

/-- Write `nv` at a field path: descend through the path's initial segment
and replace the final field. Paths written by `ScanRow` are
`scanNesting[f] ++ [f]`, hence never empty. -/
def setPath (v : GoValue) (path : List String) (nv : GoValue) : GoValue :=
  match path with
  | [] => nv
  | [n] => setField v n nv
  | n :: rest =>
    match getField v n with
    | none => v
    | some sub => setField v n (setPath sub rest nv)

mutual

/-- Strip all `db` tags from a type (Go's `ConvertibleTo` between struct
types ignores struct tags). -/
def stripTags : GoType → GoType
  | .prim n => .prim n
  | .struct fs => .struct (stripTagsFields fs)

def stripTagsFields : GoFields → GoFields
  | .nil => .nil
  | .cons name _ anonymous ty rest =>
    .cons name "" anonymous (stripTags ty) (stripTagsFields rest)

end

mutual

/-- Structural equality of the modelled types. -/
def tyBEq : GoType → GoType → Bool
  | .prim a, .prim b => a == b
  | .struct fs, .struct gs => fieldsBEq fs gs
  | .prim _, .struct _ => false
  | .struct _, .prim _ => false

def fieldsBEq : GoFields → GoFields → Bool
  | .nil, .nil => true
  | .cons n t a ty r, .cons n2 t2 a2 ty2 r2 =>
    n == n2 && t == t2 && a == a2 && tyBEq ty ty2 && fieldsBEq r r2
  | .nil, .cons _ _ _ _ _ => false
  | .cons _ _ _ _ _, .nil => false

end

/-- `t.ConvertibleTo(u)` for the types `ScanRow` compares: struct-to-struct
convertibility in Go is identity of the underlying types ignoring struct
tags. (Go additionally allows scalar conversions between distinct primitive
types; no claim here depends on those, and the targets the library is used
with have the mapping's own type.) -/
def convertibleTo (t u : GoType) : Bool := tyBEq (stripTags t) (stripTags u)

/-- What `ScanRow` places in `scan[i]` for a mapped column: the receiver
returned by `mapping.mapping[strucName].Receive(field)`, identified by the
struct-field name, the nesting path of the field, and the mapper that built
it. `none` models the nil placeholder left for an unknown column. -/
structure RecvDesc : Type where
  fieldName : String
  path : List String
  mapperName : String
deriving DecidableEq, Repr

/-- Outcome of the cursor primitive `row.Scan(scan...)`. On success, `vals`
holds the value each receiver slot was populated with (`none` for the nil
slots of unknown columns, which no cursor writes to). -/
inductive RowScanResult : Type where
  | ok (vals : List (Option GoValue)) : RowScanResult
  | err (msg : String) : RowScanResult
  | panicked (msg : String) : RowScanResult

/-- A row: the behaviour of its `Scan` method. -/
def RowFn : Type := List (Option RecvDesc) → RowScanResult

/-- The result of `ScanRow`: the Go method returns an `error` and mutates
the target through the receivers; the model returns the updated target on
success. `panicked` marks executions in which the source panics (nil-map
dereference, out-of-range index) instead of returning. -/
inductive ScanError : Type where
  | plain (msg : String) : ScanError
  | scanIndexed (index : Nat) (msg : String) (recv : Option RecvDesc) : ScanError
deriving DecidableEq, Repr

inductive ScanRowResult : Type where
  | ok (target : GoValue) : ScanRowResult
  | err (e : ScanError) : ScanRowResult
  | panicked (msg : String) : ScanRowResult

/-- Phase 1 of `ScanRow`: build the `scan` slice. Per column, an unknown
name (`mapping.dbToStruct` miss) leaves a nil placeholder; a known name
resolves the nesting closure and mapper — a nil entry in either map would
make the source panic (`mapping.scanNesting[strucName](tarval)` calls a nil
function; `mapping.mapping[strucName].Receive` calls through a nil
interface), which the model reports as `.error msg`. -/
def buildReceivers (m : Mapping) : List String → Except String (List (Option RecvDesc))
  | [] => .ok []
  | col :: rest =>
    match mapLookup m.dbToStruct col with
    | none => (buildReceivers m rest).map (fun rs => none :: rs)
    | some fieldName =>
      match mapLookup m.scanNesting fieldName with
      | none => .error ("runtime panic: nil scanNesting closure for " ++ fieldName)
      | some path =>
        match mapLookup m.mapping fieldName with
        | none => .error ("runtime panic: nil Mapper for " ++ fieldName)
        | some mp =>
          (buildReceivers m rest).map
            (fun rs => some ⟨fieldName, path, mp.name⟩ :: rs)

/-- The value `strconv.Atoi` parses from a run of decimal digits. -/
def digitsToNat (ds : List Char) : Nat :=
  ds.foldl (fun n c => 10 * n + (c.toNat - 48)) 0

/-- The match of `rowScanIndexRe = index (\d+): (.+)$` attempted at the
start of `l`: literal `"index "`, then a non-empty digit run (maximal, which
the following `:` forces), then `": "`, then a non-empty remainder that runs
to the end of the text and contains no newline (`.` does not match `\n` and
`$` anchors at end of text). Returns (submatch 1 as a number, submatch 2). -/
def matchIndexAt (l : List Char) : Option (Nat × String) :=
  match l with
  | 'i' :: 'n' :: 'd' :: 'e' :: 'x' :: ' ' :: r =>
    let ds := r.takeWhile Char.isDigit
    let r2 := r.dropWhile Char.isDigit
    if ds.isEmpty then none
    else
      match r2 with
      | ':' :: ' ' :: rest =>
        if !rest.isEmpty && rest.all (fun c => c ≠ '\n') then
          some (digitsToNat ds, String.mk rest)
        else none
      | _ => none
  | _ => none

/-- `rowScanIndexRe.FindStringSubmatch`: the submatches of the leftmost
match, or `none`. -/
def findIndexMatch : List Char → Option (Nat × String)
  | [] => none
  | c :: cs =>
    match matchIndexAt (c :: cs) with
    | some m => some m
    | none => findIndexMatch cs

/-- Phase 3 of `ScanRow`: for each position, a known column commits the
scanned value into the resolved field
(`mapping.mapping[strucName].Copy(...FieldByName(strucName).Addr()...)`);
an unknown column is skipped again. The mappers shipped with the library
leave the field equal to the scanned receiver value (`nativeMapper` writes
it during `row.Scan` and its `Copy` is a no-op; `jsonMapper.Copy` assigns
the decoded receiver), which is the effect modelled here. A `none` value
(a slot no cursor wrote) leaves the field as the receiver left it. -/
def writeBack (m : Mapping) (target : GoValue) :
    List (String × Option GoValue) → GoValue
  | [] => target
  | (col, v) :: rest =>
    match mapLookup m.dbToStruct col with
    | none => writeBack m target rest
    | some fieldName =>
      match v with
      | none => writeBack m target rest
      | some nv =>
        let path := (mapLookup m.scanNesting fieldName).getD []
        writeBack m (setPath target (path ++ [fieldName]) nv) rest

/-- `Mapping.ScanRow`. `targetTy` is `reflect.TypeOf(target).Elem()`; the
convertibility guard, the receiver-building pass, the cursor scan, the
error-text rewrite and the commit pass follow the source line by line. On a
cursor error matching `rowScanIndexRe`, the rewritten error reads
`scan error on index %v: %v (recv: %v)` with `reflect.TypeOf(scan[index])`;
`scan[index]` panics when the matched index is outside the `scan` slice. -/
def ScanRow (m : Mapping) (targetTy : GoType) (target : GoValue)
    (rowScan : RowFn) (scanOrder : List String) : ScanRowResult :=
  if !convertibleTo m.structType targetTy then
    .err (.plain "mapping type is not convertible to the scan target")
  else
    match buildReceivers m scanOrder with
    | .error msg => .panicked msg
    | .ok recvs =>
      match rowScan recvs with
      | .panicked msg => .panicked msg
      | .err msg =>
        match findIndexMatch msg.data with
        | some (index, tail) =>
          match recvs[index]? with
          | some r => .err (.scanIndexed index tail r)
          | none => .panicked "runtime error: index out of range"
        | none => .err (.plain msg)
      | .ok vals => .ok (writeBack m target (scanOrder.zip vals))

/-! ## The test cursor (`TestRow`, `TestRows` from `testutil.go`) -/

/-- `TestRow` is `map[string]interface{}`; modelled as an association list
with pairwise-distinct keys. -/
def TestRow : Type := List (String × GoValue)

/-- `TestRow.Cols()`: the keys, sorted with `sort.Strings`. -/
def testRowCols (row : TestRow) : List String :=
  (row.map Prod.fst).mergeSort (fun a b => a ≤ b)

/-- Whether the receiver built by the library mapper named `n` implements
`sql.Scanner`, which `TestRow.Scan` detects with its type assertion:
`jsonMapper.Receive` returns a `*jsonScanner` and `sqlScannerMapper.Receive`
an `sql.Scanner`, both taking the `scanner.Scan(row[col])` branch (its
error ignored); `nativeMapper.Receive` returns a plain pointer into the
field, which instead goes through the `reflect` conversion. -/
def scannerReceiver (n : String) : Bool :=
  n = "jsonMapper" || n = "sqlScannerMapper"

/-- The declared type of the field named `fn` directly inside `fs`. -/
def fieldTypeIn : GoFields → String → Option GoType
  | .nil, _ => none
  | .cons n _ _ ty rest, fn => if n = fn then some ty else fieldTypeIn rest fn

/-- The type of the field a receiver points at: the field named `fn` of the
struct reached from `t` through the embedded-field names in `path` — the
pointee type of `field.Addr()` for the field `ScanRow` resolved. -/
def fieldTypeAt : GoType → List String → String → Option GoType
  | .struct fs, [], fn => fieldTypeIn fs fn
  | .struct fs, p :: ps, fn =>
    match fieldTypeIn fs p with
    | some t => fieldTypeAt t ps fn
    | none => none
  | .prim _, _, _ => none

/-- The fragment of `reflect` convertibility `TestRow.Scan`'s
`reflect.ValueOf(row[col]).Convert(tar.Type())` call exercises: an integer
value converts to the numeric kinds (including `time.Duration`, an int64),
a string value to `string`, and a zero value to its own type; a struct
target or a cross-kind conversion such as a string into an `int` field
makes `Convert` panic. (Go additionally allows a few cross-kind
conversions — e.g. an integer to `string`, yielding a one-rune string —
that no claim evaluates; the model treats only the kind-preserving cases
as succeeding.) -/
def convertOK (v : GoValue) (t : GoType) : Bool :=
  match v, t with
  | .scalar (.int _), .prim n =>
    n ∈ ["int", "int8", "int16", "int32", "int64", "uint", "uint8",
      "uint16", "uint32", "uint64", "float32", "float64", "time.Duration"]
  | .scalar (.str _), .prim n => n = "string"
  | .scalar (.zeroOf k), .prim n => k = n
  | _, _ => false

/-- The loop of `TestRow.Scan(data...)` over `cols = row.Cols()`, against a
target of type `targetTy` (the struct the receivers point into): a nil
receiver at position `i` fails with `receiving column %q is nil`; `data[i]`
with `i` beyond `len(data)` panics; an `sql.Scanner` receiver is fed
`row[col]` directly (`scanner.Scan`'s error is ignored and the committed
value is the row's — the decoded value for well-formed JSON); any other
receiver goes through `reflect.ValueOf(row[col]).Convert(tar.Type())`,
which panics when the row's dynamic type does not convert to the pointed-at
field's type, and otherwise stores the row's value. Positions after the
last column are untouched. -/
def testRowScanGo (targetTy : GoType) (row : TestRow) :
    List String → List (Option RecvDesc) → RowScanResult
  | [], rest => .ok (rest.map fun _ => none)
  | _ :: _, [] => .panicked "runtime error: index out of range"
  | col :: cols, d :: ds =>
    match d with
    | none => .err ("receiving column \"" ++ col ++ "\" is nil")
    | some rd =>
      if scannerReceiver rd.mapperName then
        match testRowScanGo targetTy row cols ds with
        | .ok vals => .ok (mapLookup row col :: vals)
        | other => other
      else
        match mapLookup row col, fieldTypeAt targetTy rd.path rd.fieldName with
        | some v, some ft =>
          if convertOK v ft then
            match testRowScanGo targetTy row cols ds with
            | .ok vals => .ok (some v :: vals)
            | other => other
          else .panicked "reflect: value cannot be converted"
        | _, _ =>
          .panicked "reflect: call of reflect.Value.Convert on zero Value"

/-- `TestRow.Scan` as a `RowFn`, for receivers pointing into a target of
type `targetTy`. -/
def testRowScan (targetTy : GoType) (row : TestRow) : RowFn :=
  fun data => testRowScanGo targetTy row (testRowCols row) data

/-! ## Cursor consumers (`ScanOne`, `ScanStream`, `ScanAll`) -/

/-- A row cursor (the `Rows` interface): the result of `Columns()`, the
remaining rows each exposing their `Scan` behaviour (`Next` consumes one),
the value of `Err()` after exhaustion, and whether `Close()` has run. -/
structure RowsModel : Type where
  columnsResult : Except String (List String)
  rows : List RowFn
  finalErr : Option String
  closed : Bool

/-- `rows.Close()`. -/
def closeRows (rs : RowsModel) : RowsModel := { rs with closed := true }

/-- `TestRows` over a list of `TestRow`s scanned into targets of type
`targetTy`: `Columns()` is the first row's column list (or empty), `Err()`
is nil. -/
def testRowsModel (targetTy : GoType) (rows : List TestRow) : RowsModel :=
  { columnsResult := .ok (match rows with | [] => [] | r :: _ => testRowCols r)
    rows := rows.map (testRowScan targetTy)
    finalErr := none
    closed := false }

/-- Result of `ScanOne`: the returned `(found, error)` pair, the target
value after the call, and the cursor state (the deferred `Close` has run on
every path, including the panicking one — Go runs deferred calls during
unwinding). On a scan error the Go target may additionally hold partially
scanned fields (receivers point into it); no claim depends on that, and the
model returns the pre-call target then. -/
inductive ScanOneResult : Type where
  | ret (found : Bool) (error : Option ScanError) (target : GoValue)
      (cursor : RowsModel) : ScanOneResult
  | panicked (msg : String) (cursor : RowsModel) : ScanOneResult

/-- `Mapping.ScanOne`. -/
def ScanOne (m : Mapping) (targetTy : GoType) (target : GoValue)
    (rs : RowsModel) : ScanOneResult :=
  match rs.columnsResult with
  | .error e => .ret false (some (.plain e)) target (closeRows rs)
  | .ok cols =>
    match rs.rows with
    | [] => .ret false none target (closeRows rs)
    | r :: rest =>
      let rs' := closeRows { rs with rows := rest }
      match ScanRow m targetTy target r cols with
      | .ok v => .ret true none v rs'
      | .err e => .ret false (some e) target rs'
      | .panicked msg => .panicked msg rs'

/-- An element sent over `ScanStream`'s channel: a scanned record or an
error value. `panicked` marks a run in which the producing goroutine
panics instead of sending. -/
inductive StreamElem : Type where
  | val (v : GoValue) : StreamElem
  | errElem (e : ScanError) : StreamElem
  | panicked (msg : String) : StreamElem

/-- The row loop of `ScanStream`'s goroutine: each row is scanned into a
fresh `reflect.New(mapping.structType)` value; a scanned record is sent and
the loop continues; an error is sent and the goroutine returns; after
exhaustion a non-nil `rows.Err()` is sent. -/
def streamRows (m : Mapping) (cols : List String) (finalErr : Option String) :
    List RowFn → List StreamElem
  | [] =>
    match finalErr with
    | some e => [.errElem (.plain e)]
    | none => []
  | r :: rest =>
    match ScanRow m m.structType (zeroValue m.structType) r cols with
    | .ok v => .val v :: streamRows m cols finalErr rest
    | .err e => [.errElem e]
    | .panicked msg => [.panicked msg]

/-- `Mapping.ScanStream`: the full sequence of values sent over the
channel, in order (the channel itself is an unbuffered rendezvous; the
emitted sequence is what a consumer draining it receives). The goroutine
closes the cursor on every exit path. -/
def ScanStream (m : Mapping) (rs : RowsModel) : List StreamElem :=
  match rs.columnsResult with
  | .error e => [.errElem (.plain e)]
  | .ok cols => streamRows m cols rs.finalErr rs.rows

/-- Result of `ScanAll`: Go returns `(interface{}, error)`; the first
component is `nil` exactly on the error path (`return nil, err`), so no
partial slice ever accompanies an error. -/
inductive ScanAllResult : Type where
  | ret (result : Option (List GoValue)) (error : Option ScanError) : ScanAllResult
  | panicked (msg : String) : ScanAllResult

/-- The drain loop of `ScanAll`: append scanned values; on the first error
element return `(nil, err)`, discarding the accumulated slice. -/
def collectStream (acc : List GoValue) : List StreamElem → ScanAllResult
  | [] => .ret (some acc.reverse) none
  | .val v :: rest => collectStream (v :: acc) rest
  | .errElem e :: _ => .ret none (some e)
  | .panicked msg :: _ => .panicked msg

/-- `Mapping.ScanAll`. -/
def ScanAll (m : Mapping) (rs : RowsModel) : ScanAllResult :=
  collectStream [] (ScanStream m rs)

/-! ## Concrete converters and inputs used by the theorems -/

/-- The scalar kinds `nativeMapper.Accepts` admits (plus the
time/byte-slice convertibility cases, by type name; `time.Time` and
`[]byte` are not struct types in this model's granularity). -/
def nativeKinds : List String :=
  ["int", "int8", "int16", "int32", "int64",
   "uint", "uint8", "uint16", "uint32", "uint64",
   "float32", "float64", "bool", "string", "time.Time", "time.Duration",
   "[]byte"]

/-- `nativeMapper` as seen by the schema builder. -/
def nativeMapperModel : MapperModel :=
  { name := "nativeMapper"
    accepts := fun t =>
      match t with
      | .prim n => n ∈ nativeKinds
      | .struct _ => false }

/-- A registry holding only the scalar converter — the registry the builder
theorems below are evaluated against (claims about the builder quantify
over registries). -/
def exampleMappers : List MapperModel := [nativeMapperModel]

end Dbmap

namespace Dbmap

/-! ## C4: column-name inference -/

/-- C4: Column-name inference (`defaultDBName`) is a total deterministic
function implementing the tokenization of `fieldNameRe` (runs of `[A-Z]+`
each followed by `[^A-Z]*`; a run of length > 1 with a non-empty tail peels
its final uppercase letter to start the next token; lower-case every token;
join with `_`), and maps the seven specified examples as stated. -/
theorem defaultDBName_spec_examples :
    defaultDBName "Foo" = "foo" ∧
    defaultDBName "FooBar" = "foo_bar" ∧
    defaultDBName "FooBarBaz" = "foo_bar_baz" ∧
    defaultDBName "JSON" = "json" ∧
    defaultDBName "JSONThing" = "json_thing" ∧
    defaultDBName "FooJSONThing" = "foo_json_thing" ∧
    defaultDBName "FooXBar" = "foo_x_bar" := by
  refine ⟨?_, ?_, ?_, ?_, ?_, ?_, ?_⟩ <;>
    · simp [defaultDBName, tokenize, matchParts, isUpper]
      rfl

/-! ## C1 / C9: duplicate detection and map consistency of the builder -/

/-- Two top-level fields tagged `db:"foo"` (the `TestDuplicateMapping`
struct). -/
def dupTopLevel : GoType :=
  .struct (.cons "Foo" "foo" false (.prim "int")
    (.cons "Bar" "foo" false (.prim "int") .nil))

/-- An embedded struct registered first, then a colliding top-level field
(the `TestDuplicateMappingEmbedded` struct). -/
def dupEmbeddedFirst : GoType :=
  .struct (.cons "MyEmbeddedStruct" "" true
    (.struct (.cons "Foo" "foo" false (.prim "int") .nil))
    (.cons "Bar" "foo" false (.prim "int") .nil))

/-- A top-level field registered first, then an embedded struct containing
the colliding field: the duplicate is detected inside the recursive
`mapStruct` call, whose error the source discards. -/
def dupEmbeddedSecond : GoType :=
  .struct (.cons "Bar" "foo" false (.prim "int")
    (.cons "Emb" "" true
      (.struct (.cons "Foo" "foo" false (.prim "int") .nil)) .nil))

/-- Two embedded structs with colliding columns: again the duplicate is
detected inside a discarded recursive call. -/
def dupEmbeddedEmbedded : GoType :=
  .struct (.cons "EmbA" "" true
    (.struct (.cons "Foo" "foo" false (.prim "int") .nil))
    (.cons "EmbB" "" true
      (.struct (.cons "Bar" "foo" false (.prim "int") .nil)) .nil))

/-- C1: the claim fails on the code. A duplicate column is reported only
when the *second* occurrence is registered by the same `mapStruct`
invocation whose error reaches `StructMapping`: the two top-level/embedded-
first cases do error, but when the second occurrence lies inside an
embedded struct, the recursive `mapStruct` call's error is discarded
(`mapping.mapStruct(field.Type, ...)` — return value unused) and
`StructMapping` returns a usable mapping and a nil error. -/
theorem structMapping_duplicate_detection_gap :
    (StructMapping exampleMappers dupTopLevel).isOk = false ∧
    (StructMapping exampleMappers dupEmbeddedFirst).isOk = false ∧
    (StructMapping exampleMappers dupEmbeddedSecond).isOk = true ∧
    (StructMapping exampleMappers dupEmbeddedEmbedded).isOk = true := by
  refine ⟨?_, ?_, ?_, ?_⟩ <;>
    · simp [StructMapping, mapStruct, mapLookup, findMapper, exampleMappers,
        nativeMapperModel, nativeKinds, defaultDBName, tokenize, matchParts,
        isUpper, dupTopLevel, dupEmbeddedFirst, dupEmbeddedSecond,
        dupEmbeddedEmbedded, Except.isOk, Except.toBool]

/-- An embedded struct whose only field has a type no registered mapper
accepts. -/
def embUnsupported : GoType :=
  .struct (.cons "Emb" "" true
    (.struct (.cons "U" "u" false (.prim "chan int") .nil)) .nil)

/-- The mapping `StructMapping` returns for `embUnsupported`: the column is
present in `dbToStruct` (and its nesting closure in `scanNesting`), but no
`Mapper` was assigned — the `unsupported field` error was swallowed with
the rest of the embedded recursion. -/
def embUnsupportedMapping : Mapping :=
  { structType := embUnsupported
    dbToStruct := [("u", "U")]
    mapping := []
    scanNesting := [("U", ["Emb"])] }

/-- C9: the claim fails on the code. `StructMapping` can return a nil error
together with a `Mapping` whose `dbToStruct` names a column whose field has
no `Mapper` (the discarded embedded-recursion error again): scanning that
mapping's own column then dereferences a nil `Mapper` and panics. -/
theorem structMapping_inconsistent_maps :
    StructMapping exampleMappers embUnsupported = .ok embUnsupportedMapping ∧
    mapLookup embUnsupportedMapping.dbToStruct "u" = some "U" ∧
    mapLookup embUnsupportedMapping.scanNesting "U" = some ["Emb"] ∧
    mapLookup embUnsupportedMapping.mapping "U" = none ∧
    ScanRow embUnsupportedMapping embUnsupported (zeroValue embUnsupported)
        (fun _ => .ok []) ["u"] =
      .panicked "runtime panic: nil Mapper for U" := by
  refine ⟨?_, by simp [mapLookup, embUnsupportedMapping], by simp [mapLookup, embUnsupportedMapping], by simp [mapLookup, embUnsupportedMapping], ?_⟩
  · simp [StructMapping, mapStruct, mapLookup, findMapper, exampleMappers,
      nativeMapperModel, nativeKinds, embUnsupported, embUnsupportedMapping]
  · simp [ScanRow, convertibleTo, stripTags, stripTagsFields, tyBEq, fieldsBEq,
      buildReceivers, mapLookup, embUnsupportedMapping, embUnsupported]

/-! ## C6: ScanOne on an empty cursor -/

/-- C6: on a cursor with zero rows whose `Columns()` call succeeds,
`ScanOne` returns `(false, nil)`, leaves the target untouched, and has
closed the cursor. -/
theorem scanOne_empty_cursor (m : Mapping) (targetTy : GoType)
    (target : GoValue) (rs : RowsModel) (cols : List String)
    (hcols : rs.columnsResult = .ok cols) (hempty : rs.rows = []) :
    ScanOne m targetTy target rs = .ret false none target (closeRows rs) ∧
      (closeRows rs).closed = true := by
  constructor
  · unfold ScanOne
    rw [hcols, hempty]
  · rfl

/-- Witness for C6 at a concrete empty `TestRows` cursor. -/
theorem scanOne_empty_cursor_witness :
    (testRowsModel embUnsupported []).columnsResult = .ok [] ∧
    (testRowsModel embUnsupported []).rows = [] ∧
    (ScanOne embUnsupportedMapping embUnsupported (zeroValue embUnsupported)
        (testRowsModel embUnsupported []) =
      .ret false none (zeroValue embUnsupported)
        (closeRows (testRowsModel embUnsupported [])) ∧
      (closeRows (testRowsModel embUnsupported [])).closed = true) :=
  ⟨rfl, rfl,
    scanOne_empty_cursor embUnsupportedMapping embUnsupported
      (zeroValue embUnsupported) (testRowsModel embUnsupported []) [] rfl rfl⟩

end Dbmap

namespace Dbmap

/-! ## C5: registry priority — first acceptor in reverse-registration order -/

theorem registryAfter_eq_reverse (calls : List MapperModel) :
    registryAfter calls = calls.reverse := by
  have h : ∀ (l acc : List MapperModel),
      l.foldl (fun acc m => RegisterMapper m acc) acc = l.reverse ++ acc := by
    intro l
    induction l with
    | nil => intro acc; rfl
    | cons x xs ih =>
      intro acc
      rw [List.foldl_cons, ih, List.reverse_cons, List.append_assoc,
        List.singleton_append]
      rfl
  simpa [registryAfter] using h calls []

theorem findMapper_eq_find? (mappers : List MapperModel) (t : GoType) :
    findMapper mappers t = mappers.find? (fun mp => mp.accepts t) := by
  induction mappers with
  | nil => rfl
  | cons m rest ih =>
    by_cases h : m.accepts t
    · simp [findMapper, h, List.find?_cons_of_pos _ h]
    · simp [findMapper, h, List.find?_cons_of_neg _ h, ih]

theorem find?_eq_head?_filterList {α : Type} (l : List α) (p : α → Bool) :
    l.find? p = (l.filter p).head? := by
  induction l with
  | nil => rfl
  | cons x xs ih =>
    by_cases h : p x
    · rw [List.find?_cons_of_pos _ h, List.filter_cons_of_pos h, List.head?_cons]
    · rw [List.find?_cons_of_neg _ h, List.filter_cons_of_neg h, ih]

/-- C5: for every fixed sequence of `RegisterMapper` calls and every type
accepted by at least one registered mapper, the mapper the builder's search
loop selects over the resulting registry is the most recently registered
acceptor (the last acceptor in registration order), it is always found, and
— via `mapStruct`'s registration step — that is exactly the mapper the
schema builder assigns to a field of that type. -/
theorem registry_first_acceptor_wins (calls : List MapperModel) (t : GoType)
    (h : ∃ mp ∈ calls, mp.accepts t = true) :
    findMapper (registryAfter calls) t =
        (calls.filter (fun mp => mp.accepts t)).getLast? ∧
    (findMapper (registryAfter calls) t).isSome = true ∧
    (∀ (fname tag : String) (m0 : Mapping) (nesting : List String),
      tag ≠ "-" → tag ≠ "" → mapLookup m0.dbToStruct tag = none →
      mapLookup
          ((mapStruct (registryAfter calls) m0
            (.cons fname tag false t .nil) nesting).1).mapping fname =
        (calls.filter (fun mp => mp.accepts t)).getLast?) := by
  have heq : findMapper (registryAfter calls) t =
      (calls.filter (fun mp => mp.accepts t)).getLast? := by
    rw [registryAfter_eq_reverse, findMapper_eq_find?, find?_eq_head?_filterList,
      List.filter_reverse, List.head?_reverse]
  have hsome : (findMapper (registryAfter calls) t).isSome = true := by
    rw [heq]
    obtain ⟨mp, hmem, hacc⟩ := h
    have : mp ∈ calls.filter (fun mp => mp.accepts t) :=
      List.mem_filter.mpr ⟨hmem, hacc⟩
    exact List.getLast?_isSome.mpr (List.ne_nil_of_mem this)
  refine ⟨heq, hsome, ?_⟩
  intro fname tag m0 nesting htag1 htag2 hfresh
  obtain ⟨mp', hmp'⟩ := Option.isSome_iff_exists.mp hsome
  simp only [mapStruct, if_neg htag1, if_neg htag2, hfresh, hmp']
  simp only [mapStruct, mapLookup, if_pos]
  rw [← hmp', heq]

end Dbmap

namespace Dbmap

/-- A converter accepting exactly `int`. -/
def mapperAcceptInt : MapperModel :=
  { name := "acceptInt"
    accepts := fun t => match t with | .prim n => n = "int" | .struct _ => false }

/-- A converter accepting every non-struct type. -/
def mapperAcceptAnyPrim : MapperModel :=
  { name := "acceptAnyPrim"
    accepts := fun t => match t with | .prim _ => true | .struct _ => false }

/-- Witness for C5: with `mapperAcceptInt` registered first and
`mapperAcceptAnyPrim` second, the search over the resulting registry picks
`mapperAcceptAnyPrim`, the most recently registered acceptor of `int`. -/
theorem registry_first_acceptor_wins_witness :
    (∃ mp ∈ [mapperAcceptInt, mapperAcceptAnyPrim],
        mp.accepts (.prim "int") = true) ∧
    findMapper (registryAfter [mapperAcceptInt, mapperAcceptAnyPrim])
        (.prim "int") =
      ([mapperAcceptInt, mapperAcceptAnyPrim].filter
        (fun mp => mp.accepts (.prim "int"))).getLast? ∧
    findMapper (registryAfter [mapperAcceptInt, mapperAcceptAnyPrim])
        (.prim "int") = some mapperAcceptAnyPrim :=
  have hex : ∃ mp ∈ [mapperAcceptInt, mapperAcceptAnyPrim],
      mp.accepts (.prim "int") = true :=
    ⟨mapperAcceptAnyPrim, by simp, by simp [mapperAcceptAnyPrim]⟩
  ⟨hex, (registry_first_acceptor_wins _ _ hex).1, by rfl⟩

/-! ## C3: ScanAll returns no rows once any row fails to scan -/

theorem collectStream_failure (m : Mapping) (cols : List String)
    (finalErr : Option String) (pre post : List RowFn) (r : RowFn)
    (e : ScanError)
    (hpre : ∀ r' ∈ pre,
      ∃ v, ScanRow m m.structType (zeroValue m.structType) r' cols = .ok v)
    (hfail : ScanRow m m.structType (zeroValue m.structType) r cols = .err e) :
    ∀ acc, collectStream acc (streamRows m cols finalErr (pre ++ r :: post)) =
      .ret none (some e) := by
  induction pre with
  | nil =>
    intro acc
    simp only [List.nil_append, streamRows, hfail, collectStream]
  | cons r' pre' ih =>
    intro acc
    obtain ⟨v, hv⟩ := hpre r' (List.mem_cons_self r' pre')
    have ih' := ih (fun r'' hr'' => hpre r'' (List.mem_cons_of_mem r' hr''))
    simp only [List.cons_append, streamRows, hv, collectStream]
    exact ih' (v :: acc)

/-- C3: over any cursor whose column listing succeeds, if the rows before
position K all scan successfully and row K fails to scan, `ScanAll` returns
`(nil, err)` — the error of row K and no result slice, in particular not
the K-1 previously scanned records. -/
theorem scanAll_row_failure_returns_no_rows (m : Mapping) (rs : RowsModel)
    (cols : List String) (pre post : List RowFn) (r : RowFn) (e : ScanError)
    (hcols : rs.columnsResult = .ok cols)
    (hrows : rs.rows = pre ++ r :: post)
    (hpre : ∀ r' ∈ pre,
      ∃ v, ScanRow m m.structType (zeroValue m.structType) r' cols = .ok v)
    (hfail : ScanRow m m.structType (zeroValue m.structType) r cols = .err e) :
    ScanAll m rs = .ret none (some e) := by
  unfold ScanAll ScanStream
  rw [hcols, hrows]
  exact collectStream_failure m cols rs.finalErr pre post r e hpre hfail []

end Dbmap

namespace Dbmap

/-- The mapping for `struct { Foo int `db:"foo"` }` (what `StructMapping`
builds for it over `exampleMappers`). -/
def fooMapping : Mapping :=
  { structType := .struct (.cons "Foo" "foo" false (.prim "int") .nil)
    dbToStruct := [("foo", "Foo")]
    mapping := [("Foo", nativeMapperModel)]
    scanNesting := [("Foo", [])] }

/-- A row whose scan succeeds, populating the single receiver with 5. -/
def okRowC3 : RowFn := fun _ => .ok [some (.scalar (.int 5))]

/-- A row whose scan fails. -/
def badRowC3 : RowFn := fun _ => .err "boom"

/-- A two-row cursor whose second row fails to scan. -/
def rsC3 : RowsModel :=
  { columnsResult := .ok ["foo"], rows := [okRowC3, badRowC3]
    finalErr := none, closed := false }

/-- `fooMapping` is exactly what the schema builder produces for
`struct { Foo int `db:"foo"` }` over `exampleMappers`. -/
theorem fooMapping_eq_builder_output :
    StructMapping exampleMappers
      (.struct (.cons "Foo" "foo" false (.prim "int") .nil)) = .ok fooMapping := by
  simp [StructMapping, mapStruct, mapLookup, findMapper, exampleMappers,
    nativeMapperModel, nativeKinds, fooMapping]

/-- Witness for C3: on the concrete two-row cursor `rsC3`, the first row
scans to `Foo = 5`, the second fails with `boom`, and `ScanAll` returns
`(nil, boom)` — not the one successfully scanned row. -/
theorem scanAll_row_failure_returns_no_rows_witness :
    rsC3.columnsResult = .ok ["foo"] ∧
    rsC3.rows = [okRowC3] ++ badRowC3 :: [] ∧
    (∀ r' ∈ [okRowC3],
      ∃ v, ScanRow fooMapping fooMapping.structType
        (zeroValue fooMapping.structType) r' ["foo"] = .ok v) ∧
    ScanRow fooMapping fooMapping.structType (zeroValue fooMapping.structType)
        badRowC3 ["foo"] = .err (.plain "boom") ∧
    ScanAll fooMapping rsC3 = .ret none (some (.plain "boom")) := by
  have hpre : ∀ r' ∈ [okRowC3],
      ∃ v, ScanRow fooMapping fooMapping.structType
        (zeroValue fooMapping.structType) r' ["foo"] = .ok v := by
    intro r' hr'
    simp only [List.mem_singleton] at hr'
    subst hr'
    refine ⟨.struct [("Foo", .scalar (.int 5))], ?_⟩
    simp [ScanRow, convertibleTo, stripTags, stripTagsFields, tyBEq, fieldsBEq,
      buildReceivers, Except.map, mapLookup, fooMapping, okRowC3, writeBack,
      setPath, setField, setFields, getField, zeroValue, zeroValue.zeroFields,
      findIndexMatch, matchIndexAt]
  have hfail : ScanRow fooMapping fooMapping.structType
      (zeroValue fooMapping.structType) badRowC3 ["foo"] =
      .err (.plain "boom") := by
    simp [ScanRow, convertibleTo, stripTags, stripTagsFields, tyBEq, fieldsBEq,
      buildReceivers, Except.map, mapLookup, fooMapping, badRowC3, writeBack,
      setPath, setField, setFields, getField, zeroValue, zeroValue.zeroFields,
      findIndexMatch, matchIndexAt]
  exact ⟨rfl, rfl, hpre, hfail,
    scanAll_row_failure_returns_no_rows fooMapping rsC3 ["foo"] [okRowC3] []
      badRowC3 (.plain "boom") rfl rfl hpre hfail⟩

end Dbmap

namespace Dbmap

/-! ## C2: unknown columns in the scan order -/

theorem except_map_ok {α β : Type} (f : α → β) (x : Except String α) (y : β)
    (h : x.map f = .ok y) : ∃ z, x = .ok z ∧ y = f z := by
  cases x with
  | error e => simp [Except.map] at h
  | ok z => exact ⟨z, rfl, by simpa [Except.map] using h.symm⟩

/-- Processing one scan-order entry only rewrites the accumulated target:
the rest of the write-back loop is unaffected. -/
theorem writeBack_cons (m : Mapping) (target : GoValue) (c : String)
    (v : Option GoValue) :
    ∃ t', ∀ L, writeBack m target ((c, v) :: L) = writeBack m t' L := by
  cases hc : mapLookup m.dbToStruct c with
  | none => exact ⟨target, fun L => by simp [writeBack, hc]⟩
  | some fn =>
    cases v with
    | none => exact ⟨target, fun L => by simp [writeBack, hc]⟩
    | some nv =>
      exact ⟨setPath target ((mapLookup m.scanNesting fn).getD [] ++ [fn]) nv,
        fun L => by simp [writeBack, hc]⟩

/-- C2 (amended): an unknown column named at position `i` of the scan order
is ignored by `ScanRow`'s own two passes — the receiver slice carries the
nil placeholder at position `i`, and the commit pass computes the same
target as if the column (and its scanned slot) were absent. Whether the
call completes without error then depends solely on the cursor's scan
primitive accepting the nil placeholder; the library's own cursors do not
(see the counterexample theorem). -/
theorem scanRow_ignores_unknown_column (m : Mapping) (scanOrder : List String)
    (i : Nat) (col : String)
    (hcol : scanOrder[i]? = some col)
    (hunknown : mapLookup m.dbToStruct col = none) :
    (∀ recvs, buildReceivers m scanOrder = .ok recvs →
      recvs[i]? = some none) ∧
    (∀ (target : GoValue) (vals : List (Option GoValue)),
      vals.length = scanOrder.length →
      writeBack m target (scanOrder.zip vals) =
        writeBack m target ((scanOrder.eraseIdx i).zip (vals.eraseIdx i))) := by
  constructor
  · intro recvs hrecvs
    induction scanOrder generalizing i recvs with
    | nil => simp at hcol
    | cons c rest ih =>
      cases i with
      | zero =>
        simp only [List.getElem?_cons_zero, Option.some_inj] at hcol
        subst hcol
        simp only [buildReceivers, hunknown] at hrecvs
        obtain ⟨rs, _, hr⟩ := except_map_ok _ _ _ hrecvs
        subst hr
        simp
      | succ j =>
        simp only [List.getElem?_cons_succ] at hcol
        cases hc : mapLookup m.dbToStruct c with
        | none =>
          simp only [buildReceivers, hc] at hrecvs
          obtain ⟨rs, hrest, hr⟩ := except_map_ok _ _ _ hrecvs
          subst hr
          simpa using ih j hcol rs hrest
        | some fn =>
          simp only [buildReceivers, hc] at hrecvs
          cases hn : mapLookup m.scanNesting fn with
          | none => simp [hn] at hrecvs
          | some path =>
            cases hm : mapLookup m.mapping fn with
            | none => simp [hn, hm] at hrecvs
            | some mp =>
              simp only [hn, hm] at hrecvs
              obtain ⟨rs, hrest, hr⟩ := except_map_ok _ _ _ hrecvs
              subst hr
              simpa using ih j hcol rs hrest
  · intro target vals hlen
    induction scanOrder generalizing i target vals with
    | nil => simp at hcol
    | cons c rest ih =>
      cases vals with
      | nil => simp at hlen
      | cons v vs =>
        simp only [List.length_cons, Nat.succ.injEq] at hlen
        cases i with
        | zero =>
          simp only [List.getElem?_cons_zero, Option.some_inj] at hcol
          subst hcol
          simp only [List.zip_cons_cons, List.eraseIdx_zero, List.tail_cons]
          simp [writeBack, hunknown]
        | succ j =>
          simp only [List.getElem?_cons_succ] at hcol
          obtain ⟨t', ht'⟩ := writeBack_cons m target c v
          simp only [List.zip_cons_cons, List.eraseIdx_cons_succ, ht']
          exact ih j hcol t' vs hlen

end Dbmap

namespace Dbmap

/-- Witness for C2 (amended), at `fooMapping` with scan order
`["foo", "zzz"]` whose position 1 names the unknown column `zzz`. -/
theorem scanRow_ignores_unknown_column_witness :
    (["foo", "zzz"][1]? = some "zzz") ∧
    mapLookup fooMapping.dbToStruct "zzz" = none ∧
    ((∀ recvs, buildReceivers fooMapping ["foo", "zzz"] = .ok recvs →
        recvs[1]? = some none) ∧
      (∀ (target : GoValue) (vals : List (Option GoValue)),
        vals.length = (["foo", "zzz"] : List String).length →
        writeBack fooMapping target ((["foo", "zzz"] : List String).zip vals) =
          writeBack fooMapping target
            (((["foo", "zzz"] : List String).eraseIdx 1).zip
              (vals.eraseIdx 1)))) :=
  ⟨rfl, by simp [mapLookup, fooMapping],
    scanRow_ignores_unknown_column fooMapping ["foo", "zzz"] 1 "zzz" rfl
      (by simp [mapLookup, fooMapping])⟩

/-- The row `\x7b"foo": 42, "zzz": "y"\x7d` of the library's own test
cursor: the known column `foo` carries an `int`, matching the `int` field
`Foo` it is scanned into, so `TestRow.Scan`'s reflect conversion at
position 0 succeeds and the loop reaches the nil receiver at position 1. -/
def c2row : TestRow := [("foo", .scalar (.int 42)), ("zzz", .scalar (.str "y"))]

/-- Counterexample to C2 as stated: scanning with the repository's own
`TestRow` cursor and a scan order containing the unknown column `zzz` does
*not* complete without error. The known column `foo` scans cleanly (its
`int` row value converts to the `int` field, so the loop passes position
0), and then the nil placeholder `ScanRow` left at the unknown column's
position makes `TestRow.Scan` fail with `receiving column "zzz" is nil`
(`database/sql` rows likewise reject a nil destination); `ScanRow` returns
that error unchanged, as it matches no `rowScanIndexRe` pattern. -/
theorem scanRow_unknown_column_error_counterexample :
    testRowCols c2row = ["foo", "zzz"] ∧
    mapLookup fooMapping.dbToStruct "zzz" = none ∧
    ScanRow fooMapping fooMapping.structType (zeroValue fooMapping.structType)
        (testRowScan fooMapping.structType c2row) ["foo", "zzz"] =
      .err (.plain "receiving column \"zzz\" is nil") := by
  refine ⟨?_, by simp [mapLookup, fooMapping], ?_⟩
  · simp +decide [testRowCols, c2row, List.mergeSort, List.merge]
  · simp +decide [ScanRow, convertibleTo, stripTags, stripTagsFields, tyBEq,
      fieldsBEq, buildReceivers, Except.map, mapLookup, fooMapping, c2row,
      testRowScan, testRowCols, testRowScanGo, scannerReceiver, convertOK,
      fieldTypeAt, fieldTypeIn, nativeMapperModel, List.mergeSort,
      List.merge, zeroValue, zeroValue.zeroFields, findIndexMatch,
      matchIndexAt]

end Dbmap

namespace Dbmap

/-! ## C7: translation of indexed scan-primitive errors -/

/-- C7 (amended): when the cursor's scan primitive fails, `ScanRow` inspects
the error text with `rowScanIndexRe`. A match naming an index within the
receiver slice is re-expressed as the structured indexed error carrying the
index, the underlying message and the receiver at that index; a match
naming an out-of-range index makes `scan[index]` panic instead of
returning; a non-matching error is returned unchanged. -/
theorem scanRow_index_error_translation (m : Mapping) (targetTy : GoType)
    (target : GoValue) (rowScan : RowFn) (scanOrder : List String)
    (recvs : List (Option RecvDesc)) (msg : String)
    (hty : convertibleTo m.structType targetTy = true)
    (hrecvs : buildReceivers m scanOrder = .ok recvs)
    (hfail : rowScan recvs = .err msg) :
    (∀ index tail r, findIndexMatch msg.data = some (index, tail) →
      recvs[index]? = some r →
      ScanRow m targetTy target rowScan scanOrder =
        .err (.scanIndexed index tail r)) ∧
    (∀ index tail, findIndexMatch msg.data = some (index, tail) →
      recvs[index]? = none →
      ScanRow m targetTy target rowScan scanOrder =
        .panicked "runtime error: index out of range") ∧
    (findIndexMatch msg.data = none →
      ScanRow m targetTy target rowScan scanOrder = .err (.plain msg)) := by
  refine ⟨?_, ?_, ?_⟩
  · intro index tail r hmatch hr
    simp [ScanRow, hty, hrecvs, hfail, hmatch, hr]
  · intro index tail hmatch hr
    simp [ScanRow, hty, hrecvs, hfail, hmatch, hr]
  · intro hmatch
    simp [ScanRow, hty, hrecvs, hfail, hmatch]

/-- A row whose scan fails naming receiver index 0 (the error shape of
`database/sql`: `Scan error on column index 0: ...`). -/
def idxErrRow : RowFn := fun _ => .err "index 0: conversion failed"

/-- Witness for C7 (amended): on `fooMapping`, a failure text matching the
pattern at the in-range index 0 is re-expressed with the index, the message
tail and the receiver at index 0. -/
theorem scanRow_index_error_translation_witness :
    convertibleTo fooMapping.structType fooMapping.structType = true ∧
    buildReceivers fooMapping ["foo"] =
      .ok [some ⟨"Foo", [], "nativeMapper"⟩] ∧
    idxErrRow [some ⟨"Foo", [], "nativeMapper"⟩] =
      .err "index 0: conversion failed" ∧
    findIndexMatch ("index 0: conversion failed").data =
      some (0, "conversion failed") ∧
    ScanRow fooMapping fooMapping.structType (zeroValue fooMapping.structType)
        idxErrRow ["foo"] =
      .err (.scanIndexed 0 "conversion failed"
        (some ⟨"Foo", [], "nativeMapper"⟩)) := by
  have hty : convertibleTo fooMapping.structType fooMapping.structType = true := by
    simp [convertibleTo, stripTags, stripTagsFields, tyBEq, fieldsBEq, fooMapping]
  have hrecvs : buildReceivers fooMapping ["foo"] =
      .ok [some ⟨"Foo", [], "nativeMapper"⟩] := by
    simp [buildReceivers, Except.map, mapLookup, fooMapping, nativeMapperModel]
  have hmatch : findIndexMatch ("index 0: conversion failed").data =
      some (0, "conversion failed") := by
    simp [findIndexMatch, matchIndexAt, digitsToNat]
  exact ⟨hty, hrecvs, rfl, hmatch,
    (scanRow_index_error_translation fooMapping fooMapping.structType
        (zeroValue fooMapping.structType) idxErrRow ["foo"]
        [some ⟨"Foo", [], "nativeMapper"⟩] "index 0: conversion failed"
        hty hrecvs rfl).1 0 "conversion failed"
      (some ⟨"Foo", [], "nativeMapper"⟩) hmatch rfl⟩

/-- A row whose scan fails naming an index beyond the receiver slice. -/
def outOfRangeIdxRow : RowFn := fun _ => .err "index 5: boom"

/-- Counterexample to C7 as stated: a failure text matching the pattern
with an index outside the receiver slice does not yield a re-expressed
error — evaluating `reflect.TypeOf(scan[index])` panics with an
out-of-range index, so `ScanRow` never returns. -/
theorem scanRow_index_out_of_range_counterexample :
    findIndexMatch ("index 5: boom").data = some (5, "boom") ∧
    ScanRow fooMapping fooMapping.structType (zeroValue fooMapping.structType)
        outOfRangeIdxRow ["foo"] =
      .panicked "runtime error: index out of range" := by
  constructor
  · simp [findIndexMatch, matchIndexAt, digitsToNat]
  · simp [ScanRow, convertibleTo, stripTags, stripTagsFields, tyBEq, fieldsBEq,
      buildReceivers, Except.map, mapLookup, fooMapping, outOfRangeIdxRow,
      findIndexMatch, matchIndexAt, digitsToNat]

end Dbmap

namespace Dbmap

/-! ## C10: the frame property of `ScanRow` -/

/-- `pathBelow p q`: `p` is an initial segment of `q` (so a write at `p`
replaces a subtree containing the position `q`, and a write at any
extension of `q` lies inside the subtree read at `q`). -/
def pathBelow : List String → List String → Bool
  | [], _ => true
  | a :: p, q =>
    match q with
    | [] => false
    | b :: q2 => a == b && pathBelow p q2

/-- The field path `ScanRow` writes for the struct field `fn`: the nesting
closure's chain followed by the field name. -/
def writePath (m : Mapping) (fn : String) : List String :=
  (mapLookup m.scanNesting fn).getD [] ++ [fn]

theorem getField_setField_ne (v : GoValue) (a b : String) (x : GoValue)
    (h : a ≠ b) : getField (setField v a x) b = getField v b := by
  cases v with
  | scalar s => rfl
  | struct fs =>
    simp only [setField, getField]
    induction fs with
    | nil => rfl
    | cons p rest ih =>
      obtain ⟨k, w⟩ := p
      simp only [setFields]
      by_cases hp : k = a
      · rw [if_pos hp]
        simp only [mapLookup]
        rw [if_neg (fun hkb => h (hp.symm.trans hkb)),
          if_neg (fun hkb => h (hp.symm.trans hkb))]
        exact ih
      · rw [if_neg hp]
        simp only [mapLookup]
        by_cases hb : k = b
        · rw [if_pos hb, if_pos hb]
        · rw [if_neg hb, if_neg hb]
          exact ih

theorem getField_setField_eq (v : GoValue) (a : String) (x sub : GoValue)
    (h : getField v a = some sub) : getField (setField v a x) a = some x := by
  cases v with
  | scalar s => simp [getField] at h
  | struct fs =>
    simp only [setField, getField] at h ⊢
    induction fs with
    | nil => simp [mapLookup] at h
    | cons p rest ih =>
      obtain ⟨k, w⟩ := p
      simp only [setFields]
      by_cases hp : k = a
      · rw [if_pos hp]
        simp only [mapLookup]
        rw [if_pos hp]
      · rw [if_neg hp]
        simp only [mapLookup] at h ⊢
        rw [if_neg hp] at h ⊢
        exact ih h

/-- A write at path `p` does not change the value read at a path `q` that
neither extends nor is extended by `p`. -/
theorem getPath_setPath_disjoint (p : List String) (v : GoValue)
    (q : List String) (nv : GoValue)
    (hpq : pathBelow p q = false) (hqp : pathBelow q p = false) :
    getPath (setPath v p nv) q = getPath v q := by
  induction p generalizing v q with
  | nil => simp [pathBelow] at hpq
  | cons a p' ih =>
    cases q with
    | nil => simp [pathBelow] at hqp
    | cons b q' =>
      simp only [pathBelow, Bool.and_eq_false_eq_eq_false_or_eq_false,
        beq_eq_false_iff_ne, ne_eq] at hpq hqp
      by_cases hab : a = b
      · subst hab
        have hp'q' : pathBelow p' q' = false := by
          rcases hpq with h | h
          · exact absurd rfl h
          · exact h
        have hq'p' : pathBelow q' p' = false := by
          rcases hqp with h | h
          · exact absurd rfl h
          · exact h
        cases p' with
        | nil => simp [pathBelow] at hp'q'
        | cons c p'' =>
          simp only [setPath]
          cases hget : getField v a with
          | none => rfl
          | some sub =>
            simp only [getPath, getField_setField_eq v a _ sub hget, hget]
            exact ih sub q' hp'q' hq'p'
      · cases p' with
        | nil =>
          simp only [setPath, getPath,
            getField_setField_ne v a b nv (fun hh => hab hh)]
        | cons c p'' =>
          simp only [setPath]
          cases hget : getField v a with
          | none => rfl
          | some sub =>
            simp only [getPath,
              getField_setField_ne v a b _ (fun hh => hab hh), hget]

/-- The write-back pass leaves every position disjoint from all written
paths unchanged. -/
theorem getPath_writeBack_disjoint (m : Mapping) (q : List String)
    (pairs : List (String × Option GoValue))
    (hsep : ∀ col fn, col ∈ pairs.map Prod.fst →
      mapLookup m.dbToStruct col = some fn →
      pathBelow (writePath m fn) q = false ∧
      pathBelow q (writePath m fn) = false) :
    ∀ target, getPath (writeBack m target pairs) q = getPath target q := by
  induction pairs with
  | nil => intro target; rfl
  | cons p rest ih =>
    intro target
    obtain ⟨col, v⟩ := p
    have hrest := fun col' fn' hc hf =>
      hsep col' fn' (by simp only [List.map_cons]; exact List.mem_cons_of_mem _ hc) hf
    cases hc : mapLookup m.dbToStruct col with
    | none => simpa only [writeBack, hc] using ih hrest target
    | some fn =>
      cases v with
      | none => simpa only [writeBack, hc] using ih hrest target
      | some nv =>
        have hd := hsep col fn (by simp) hc
        simp only [writeBack, hc]
        rw [ih hrest]
        exact getPath_setPath_disjoint _ _ _ _ hd.1 hd.2

end Dbmap

namespace Dbmap

/-- A successful `ScanRow` is exactly: receivers built, cursor scan
succeeded, commit pass ran. -/
theorem scanRow_ok_inversion (m : Mapping) (targetTy : GoType)
    (target : GoValue) (rowScan : RowFn) (scanOrder : List String)
    (out : GoValue)
    (hok : ScanRow m targetTy target rowScan scanOrder = .ok out) :
    ∃ recvs vals, buildReceivers m scanOrder = .ok recvs ∧
      rowScan recvs = .ok vals ∧
      out = writeBack m target (scanOrder.zip vals) := by
  unfold ScanRow at hok
  split at hok
  · cases hok
  · split at hok
    · cases hok
    · rename_i recvs hrecvs
      split at hok
      · cases hok
      · split at hok
        · split at hok
          · cases hok
          · cases hok
        · cases hok
      · rename_i vals hvals
        exact ⟨recvs, vals, hrecvs, hvals, (ScanRowResult.ok.injEq _ _ ▸ hok).symm⟩

/-- C10 (amended): after a successful `ScanRow`, the value at the write
path of any mapped column `c` outside the scan order is unchanged,
*provided* the write paths of the scanned columns neither extend nor are
extended by `c`'s write path. (With the field-name-keyed `scanNesting` and
`mapping` maps this proviso can fail when two mapped fields at different
nesting depths share a Go field name — see the counterexample, where a
scanned column overwrites the field of a column that is not in the scan
order.) -/
theorem scanRow_frame (m : Mapping) (targetTy : GoType) (target : GoValue)
    (rowScan : RowFn) (scanOrder : List String) (out : GoValue)
    (c fn : String)
    (hok : ScanRow m targetTy target rowScan scanOrder = .ok out)
    (_hc : mapLookup m.dbToStruct c = some fn)
    (_hnotin : c ∉ scanOrder)
    (hsep : ∀ col' fn', col' ∈ scanOrder →
      mapLookup m.dbToStruct col' = some fn' →
      pathBelow (writePath m fn') (writePath m fn) = false ∧
      pathBelow (writePath m fn) (writePath m fn') = false) :
    getPath out (writePath m fn) = getPath target (writePath m fn) := by
  obtain ⟨recvs, vals, hrecvs, hscan, hout⟩ :=
    scanRow_ok_inversion m targetTy target rowScan scanOrder out hok
  subst hout
  apply getPath_writeBack_disjoint
  intro col' fn' hcol' hfn'
  have hmem : col' ∈ scanOrder := by
    simp only [List.mem_map] at hcol'
    obtain ⟨⟨c1, v1⟩, hzip, hfst⟩ := hcol'
    cases hfst
    exact (List.of_mem_zip hzip).1
  exact hsep col' fn' hmem hfn'

end Dbmap

namespace Dbmap

/-- The mapping for `struct { Foo int `db:"foo"`; Bar int `db:"bar"` }`
(the builder's output over `exampleMappers`). -/
def fooBarMapping : Mapping :=
  { structType := .struct (.cons "Foo" "foo" false (.prim "int")
      (.cons "Bar" "bar" false (.prim "int") .nil))
    dbToStruct := [("bar", "Bar"), ("foo", "Foo")]
    mapping := [("Bar", nativeMapperModel), ("Foo", nativeMapperModel)]
    scanNesting := [("Bar", []), ("Foo", [])] }

/-- Witness for C10 (amended): scanning only column `foo` of
`fooBarMapping` rewrites `Foo` and leaves the value at `bar`'s write path
(`Bar = 2`) untouched. -/
theorem scanRow_frame_witness :
    ScanRow fooBarMapping fooBarMapping.structType
        (.struct [("Foo", .scalar (.int 1)), ("Bar", .scalar (.int 2))])
        okRowC3 ["foo"] =
      .ok (.struct [("Foo", .scalar (.int 5)), ("Bar", .scalar (.int 2))]) ∧
    mapLookup fooBarMapping.dbToStruct "bar" = some "Bar" ∧
    "bar" ∉ (["foo"] : List String) ∧
    (∀ col' fn', col' ∈ (["foo"] : List String) →
      mapLookup fooBarMapping.dbToStruct col' = some fn' →
      pathBelow (writePath fooBarMapping fn') (writePath fooBarMapping "Bar") = false ∧
      pathBelow (writePath fooBarMapping "Bar") (writePath fooBarMapping fn') = false) ∧
    getPath (.struct [("Foo", .scalar (.int 5)), ("Bar", .scalar (.int 2))])
        (writePath fooBarMapping "Bar") =
      getPath (.struct [("Foo", .scalar (.int 1)), ("Bar", .scalar (.int 2))])
        (writePath fooBarMapping "Bar") := by
  have hok : ScanRow fooBarMapping fooBarMapping.structType
      (.struct [("Foo", .scalar (.int 1)), ("Bar", .scalar (.int 2))])
      okRowC3 ["foo"] =
      .ok (.struct [("Foo", .scalar (.int 5)), ("Bar", .scalar (.int 2))]) := by
    simp [ScanRow, convertibleTo, stripTags, stripTagsFields, tyBEq, fieldsBEq,
      buildReceivers, Except.map, mapLookup, fooBarMapping, okRowC3, writeBack,
      setPath, setField, setFields, getField, findIndexMatch, matchIndexAt]
  have hc : mapLookup fooBarMapping.dbToStruct "bar" = some "Bar" := by
    simp [mapLookup, fooBarMapping]
  have hnotin : "bar" ∉ (["foo"] : List String) := by simp
  have hsep : ∀ col' fn', col' ∈ (["foo"] : List String) →
      mapLookup fooBarMapping.dbToStruct col' = some fn' →
      pathBelow (writePath fooBarMapping fn') (writePath fooBarMapping "Bar") = false ∧
      pathBelow (writePath fooBarMapping "Bar") (writePath fooBarMapping fn') = false := by
    intro col' fn' hmem hlook
    simp only [List.mem_singleton] at hmem
    subst hmem
    simp [mapLookup, fooBarMapping] at hlook
    subst hlook
    constructor <;>
      simp [writePath, mapLookup, fooBarMapping, pathBelow]
  exact ⟨hok, hc, hnotin, hsep,
    scanRow_frame fooBarMapping fooBarMapping.structType
      (.struct [("Foo", .scalar (.int 1)), ("Bar", .scalar (.int 2))])
      okRowC3 ["foo"]
      (.struct [("Foo", .scalar (.int 5)), ("Bar", .scalar (.int 2))])
      "bar" "Bar" hok hc hnotin hsep⟩

/-- The record type
`struct { Inner (anonymous, untagged, with Foo int `db:"b"`); Foo int `db:"a"` }`:
the embedded field and the top-level field share the Go name `Foo`. -/
def shadowTy : GoType :=
  .struct (.cons "Inner" "" true
    (.struct (.cons "Foo" "b" false (.prim "int") .nil))
    (.cons "Foo" "a" false (.prim "int") .nil))

/-- What the builder produces for `shadowTy`: both columns map to the field
name `Foo`, and the later-walked top-level `Foo` has overwritten the
embedded field's entries in the field-name-keyed maps. -/
def shadowMapping : Mapping :=
  { structType := shadowTy
    dbToStruct := [("a", "Foo"), ("b", "Foo")]
    mapping := [("Foo", nativeMapperModel), ("Foo", nativeMapperModel)]
    scanNesting := [("Foo", []), ("Foo", ["Inner"])] }

/-- A target value for `shadowTy`: the embedded `Inner.Foo` is 1, the
top-level `Foo` (column `a`) is 2. -/
def shadowTarget : GoValue :=
  .struct [("Inner", .struct [("Foo", .scalar (.int 1))]),
    ("Foo", .scalar (.int 2))]

/-- A row populating its single receiver with 7. -/
def shadowRow : RowFn := fun _ => .ok [some (.scalar (.int 7))]

/-- Counterexample to C10 as stated: a successful `ScanRow` whose scan
order holds only column `b` nevertheless rewrites the field of column `a`
(the top-level `Foo`, whose value 2 becomes 7), because the later-walked
top-level `Foo` overwrote the shared `scanNesting`/`mapping` entries of the
embedded `Foo`. The field mapped from column `a`, a column absent from the
scan order, does not retain its value — and the embedded field that column
`b` maps to is not written at all. -/
theorem scanRow_shadowed_field_counterexample :
    StructMapping exampleMappers shadowTy = .ok shadowMapping ∧
    mapLookup shadowMapping.dbToStruct "a" = some "Foo" ∧
    "a" ∉ (["b"] : List String) ∧
    ScanRow shadowMapping shadowTy shadowTarget shadowRow ["b"] =
      .ok (.struct [("Inner", .struct [("Foo", .scalar (.int 1))]),
        ("Foo", .scalar (.int 7))]) ∧
    getPath (.struct [("Inner", .struct [("Foo", .scalar (.int 1))]),
        ("Foo", .scalar (.int 7))]) (writePath shadowMapping "Foo") ≠
      getPath shadowTarget (writePath shadowMapping "Foo") := by
  refine ⟨?_, by simp [mapLookup, shadowMapping], by simp, ?_, ?_⟩
  · simp [StructMapping, mapStruct, mapLookup, findMapper, exampleMappers,
      nativeMapperModel, nativeKinds, shadowTy, shadowMapping]
  · simp [ScanRow, convertibleTo, stripTags, stripTagsFields, tyBEq, fieldsBEq,
      buildReceivers, Except.map, mapLookup, shadowMapping, shadowTy,
      shadowTarget, shadowRow, writeBack, setPath, setField, setFields,
      getField, findIndexMatch, matchIndexAt]
  · simp [writePath, mapLookup, shadowMapping, shadowTarget, getPath, getField]

end Dbmap

namespace Dbmap

/-! ## C8: the JSON converter (`jsonScanner.Scan` / `jsonScanner.Value`)

The codec itself is Go's `encoding/json`, an external library (the spec
treats converter codec logic as an external collaborator), so it is
modelled here from the spec's description of the converter: JSON values in
the decoder's image. `map[string]interface{}` is represented canonically as
its key-sorted association list (`JObj`); Go's encoder emits object keys in
sorted order, which is the identity on this representation. Numbers are
decoded by Go to `float64`; the model carries integers (the fragment with
decidable round-trip behaviour — float formatting is out of scope). -/

mutual

/-- A JSON value in the image of the decoder. -/
inductive JVal : Type where
  | null : JVal
  | bool (b : Bool) : JVal
  | num (n : Int) : JVal
  | str (s : String) : JVal
  | arr (elems : JArr) : JVal
  | obj (fields : JObj) : JVal

inductive JArr : Type where
  | nil : JArr
  | cons (v : JVal) (rest : JArr) : JArr

inductive JObj : Type where
  | nil : JObj
  | cons (key : String) (v : JVal) (rest : JObj) : JObj

end

/-- The decimal digit `n` (`0 ≤ n < 10`). -/
def digitChar (n : Nat) : Char := Char.ofNat (48 + n)

/-- The lowercase hexadecimal digit `n` (`0 ≤ n < 16`), as in Go's
`encoding/json` `hex = "0123456789abcdef"`. -/
def hexDigitChar (n : Nat) : Char :=
  if n < 10 then Char.ofNat (48 + n) else Char.ofNat (87 + n)

/-- Decimal digits of `n`, most significant first. -/
def natToChars (n : Nat) : List Char :=
  if n < 10 then [digitChar n]
  else natToChars (n / 10) ++ [digitChar (n % 10)]
termination_by n
decreasing_by
  exact Nat.div_lt_self (by omega) (by omega)

/-- Go's JSON encoding of a number the model carries (an integer-valued
`float64` encodes without exponent or decimal point). -/
def encNum (n : Int) : List Char :=
  if n < 0 then '-' :: natToChars n.natAbs else natToChars n.toNat

/-- A `\u00xx` escape for the character code `n < 256`. -/
def uEscape (n : Nat) : List Char :=
  '\\' :: 'u' :: '0' :: '0' :: hexDigitChar (n / 16) :: [hexDigitChar (n % 16)]

/-- How Go's `encoding/json` encoder (HTML escaping on, as `json.Encoder`
uses by default) emits one character of a string: `\"`, `\\`, `\n`, `\r`,
`\t`; other control characters, and `<` `>` `&`, as `\u00xx`; U+2028 and
U+2029 as `\u202x`; everything else verbatim. -/
def escapeChar (c : Char) : List Char :=
  if c = '"' then ['\\', '"']
  else if c = '\\' then ['\\', '\\']
  else if c = '\n' then ['\\', 'n']
  else if c = '\r' then ['\\', 'r']
  else if c = '\t' then ['\\', 't']
  else if c.toNat < 32 then uEscape c.toNat
  else if c = '<' ∨ c = '>' ∨ c = '&' then uEscape c.toNat
  else if c.toNat = 8232 ∨ c.toNat = 8233 then
    ['\\', 'u', '2', '0', '2', hexDigitChar (c.toNat % 16)]
  else [c]

/-- The escaped body of a JSON string literal. -/
def escString (s : List Char) : List Char := s.flatMap escapeChar

mutual

/-- The compact JSON text `encoding/json` produces for a value (keys of the
canonical `JObj` representation are already in the sorted order the encoder
emits). -/
def encVal : JVal → List Char
  | .null => "null".data
  | .bool true => "true".data
  | .bool false => "false".data
  | .num n => encNum n
  | .str s => '"' :: escString s.data ++ ['"']
  | .arr a => '[' :: encArrBody a
  | .obj o => '{' :: encObjBody o

def encArrBody : JArr → List Char
  | .nil => [']']
  | .cons v rest => encVal v ++ encArrRest rest

def encArrRest : JArr → List Char
  | .nil => [']']
  | .cons v rest => ',' :: encVal v ++ encArrRest rest

def encObjBody : JObj → List Char
  | .nil => ['}']
  | .cons k v rest =>
    '"' :: escString k.data ++ '"' :: ':' :: encVal v ++ encObjRest rest

def encObjRest : JObj → List Char
  | .nil => ['}']
  | .cons k v rest =>
    ',' :: '"' :: escString k.data ++ '"' :: ':' :: encVal v ++ encObjRest rest

end

/-- The numeric value of a hexadecimal digit. -/
def hexVal (c : Char) : Option Nat :=
  if '0' ≤ c ∧ c ≤ '9' then some (c.toNat - 48)
  else if 'a' ≤ c ∧ c ≤ 'f' then some (c.toNat - 87)
  else if 'A' ≤ c ∧ c ≤ 'F' then some (c.toNat - 55)
  else none

/-- The single-character escapes the decoder accepts. -/
def unescapeChar (c : Char) : Option Char :=
  if c = '"' then some '"'
  else if c = '\\' then some '\\'
  else if c = '/' then some '/'
  else if c = 'b' then some (Char.ofNat 8)
  else if c = 'f' then some (Char.ofNat 12)
  else if c = 'n' then some '\n'
  else if c = 'r' then some '\r'
  else if c = 't' then some '\t'
  else none

/-- Decode a JSON string-literal body up to the closing quote, returning
the decoded characters and the input after the quote. (Surrogate-pair
recombination for `\uXXXX` outside the basic escapes is not modelled; the
encoder under verification never emits surrogates.) -/
def parseStringBody : List Char → Option (List Char × List Char)
  | [] => none
  | c :: rest =>
    if c = '"' then some ([], rest)
    else if c = '\\' then
      match rest with
      | 'u' :: h1 :: h2 :: h3 :: h4 :: rest2 =>
        match hexVal h1, hexVal h2, hexVal h3, hexVal h4 with
        | some a, some b, some c2, some d =>
          (parseStringBody rest2).map
            (fun p => (Char.ofNat (4096 * a + 256 * b + 16 * c2 + d) :: p.1, p.2))
        | _, _, _, _ => none
      | e :: rest2 =>
        match unescapeChar e with
        | some c2 => (parseStringBody rest2).map (fun p => (c2 :: p.1, p.2))
        | none => none
      | [] => none
    else (parseStringBody rest).map (fun p => (c :: p.1, p.2))

mutual

/-- One JSON value of the compact sublanguage the encoder emits (the real
decoder additionally skips inter-token whitespace, which compact output
does not contain). The fuel argument only breaks the value/element
recursion; `decodeJSON` supplies more fuel than any input can consume. -/
def parseVal : Nat → List Char → Option (JVal × List Char)
  | 0, _ => none
  | _ + 1, [] => none
  | fuel + 1, c :: rest =>
    if c = 'n' then
      match rest with
      | 'u' :: 'l' :: 'l' :: r => some (.null, r)
      | _ => none
    else if c = 't' then
      match rest with
      | 'r' :: 'u' :: 'e' :: r => some (.bool true, r)
      | _ => none
    else if c = 'f' then
      match rest with
      | 'a' :: 'l' :: 's' :: 'e' :: r => some (.bool false, r)
      | _ => none
    else if c = '"' then
      (parseStringBody rest).map (fun p => (.str (String.mk p.1), p.2))
    else if c = '[' then parseArrBody fuel rest
    else if c = '{' then parseObjBody fuel rest
    else if c = '-' then
      let ds := rest.takeWhile Char.isDigit
      if ds.isEmpty then none
      else some (.num (-(digitsToNat ds : Int)), rest.dropWhile Char.isDigit)
    else if c.isDigit then
      some (.num (digitsToNat ((c :: rest).takeWhile Char.isDigit)),
        (c :: rest).dropWhile Char.isDigit)
    else none

/-- The inside of an array, after `[`. -/
def parseArrBody : Nat → List Char → Option (JVal × List Char)
  | 0, _ => none
  | _ + 1, [] => none
  | fuel + 1, c :: rest =>
    if c = ']' then some (.arr .nil, rest)
    else
      match parseVal fuel (c :: rest) with
      | none => none
      | some (v, r) =>
        match parseArrRest fuel r with
        | none => none
        | some (vs, r2) => some (.arr (.cons v vs), r2)

/-- Array continuation: `]` or `,` followed by the next element. -/
def parseArrRest : Nat → List Char → Option (JArr × List Char)
  | 0, _ => none
  | _ + 1, [] => none
  | fuel + 1, c :: rest =>
    if c = ']' then some (.nil, rest)
    else if c = ',' then
      match parseVal fuel rest with
      | none => none
      | some (v, r) =>
        match parseArrRest fuel r with
        | none => none
        | some (vs, r2) => some (.cons v vs, r2)
    else none

/-- The inside of an object, after `{`. -/
def parseObjBody : Nat → List Char → Option (JVal × List Char)
  | 0, _ => none
  | _ + 1, [] => none
  | fuel + 1, c :: rest =>
    if c = '}' then some (.obj .nil, rest)
    else if c = '"' then
      match parseStringBody rest with
      | none => none
      | some (k, r) =>
        match r with
        | ':' :: r2 =>
          match parseVal fuel r2 with
          | none => none
          | some (v, r3) =>
            match parseObjRest fuel r3 with
            | none => none
            | some (kvs, r4) => some (.obj (.cons (String.mk k) v kvs), r4)
        | _ => none
    else none

/-- Object continuation: `}` or `,` followed by the next member. -/
def parseObjRest : Nat → List Char → Option (JObj × List Char)
  | 0, _ => none
  | _ + 1, [] => none
  | fuel + 1, c :: rest =>
    if c = '}' then some (.nil, rest)
    else if c = ',' then
      match rest with
      | '"' :: rest2 =>
        match parseStringBody rest2 with
        | none => none
        | some (k, r) =>
          match r with
          | ':' :: r2 =>
            match parseVal fuel r2 with
            | none => none
            | some (v, r3) =>
              match parseObjRest fuel r3 with
              | none => none
              | some (kvs, r4) => some (.cons (String.mk k) v kvs, r4)
          | _ => none
      | _ => none
    else none

end

/-- JSON whitespace, skipped by the decoder before a value. -/
def isJSONSpace (c : Char) : Bool :=
  c = ' ' || c = '\t' || c = '\n' || c = '\r'

/-- `json.NewDecoder(in).Decode(js)` with `js` a `*jsonScanner` (a
string-keyed map): parse one value; an object populates the map, `null`
leaves the fresh empty map as is, any other value (or malformed input)
fails; input after the decoded value is not consumed. -/
def decodeJSON (l : List Char) : Except String JObj :=
  let l' := l.dropWhile isJSONSpace
  match parseVal (l'.length + 1) l' with
  | some (.obj o, _) => .ok o
  | some (.null, _) => .ok .nil
  | some _ => .error "json: cannot unmarshal value into map"
  | none => .error "invalid JSON input"

/-- The raw column value handed to `jsonScanner.Scan`: the Go dynamic type
switch distinguishes `string`, `[]byte` and everything else. -/
inductive RawValue : Type where
  | str (s : String) : RawValue
  | bytes (text : List Char) : RawValue
  | other (printed : String) : RawValue

/-- `jsonScanner.Scan`: strings and byte slices are decoded as JSON text,
anything else fails with `can not decode json from %#v`. -/
def jsonScannerScan (value : RawValue) : Except String JObj :=
  match value with
  | .str s => decodeJSON s.data
  | .bytes text => decodeJSON text
  | .other printed => .error ("can not decode json from " ++ printed)

/-- `jsonScanner.Value`: `json.NewEncoder(buf).Encode(js)` writes the
compact encoding followed by a newline, and the buffer's string is
returned. -/
def jsonScannerValue (o : JObj) : String :=
  String.mk (encVal (.obj o) ++ ['\n'])

end Dbmap

namespace Dbmap

/-! Digit and hex-digit facts used by the JSON round trip. -/

theorem hexVal_hexDigitChar (n : Nat) (h : n < 16) :
    hexVal (hexDigitChar n) = some n := by
  interval_cases n <;> decide

theorem digitChar_isDigit (d : Nat) (h : d < 10) :
    (digitChar d).isDigit = true := by
  interval_cases d <;> decide

theorem digitChar_toNat (d : Nat) (h : d < 10) :
    (digitChar d).toNat = 48 + d := by
  interval_cases d <;> decide

theorem natToChars_shape (n : Nat) :
    ∃ d ds, natToChars n = digitChar d :: ds ∧ d < 10 := by
  induction n using Nat.strong_induction_on with
  | _ n ih =>
    unfold natToChars
    by_cases h : n < 10
    · exact ⟨n, [], by rw [if_pos h], h⟩
    · obtain ⟨d, ds, hds, hd⟩ := ih (n / 10) (Nat.div_lt_self (by omega) (by omega))
      exact ⟨d, ds ++ [digitChar (n % 10)], by rw [if_neg h, hds]; rfl, hd⟩

theorem natToChars_all_digits (n : Nat) :
    ∀ c ∈ natToChars n, c.isDigit = true := by
  induction n using Nat.strong_induction_on with
  | _ n ih =>
    unfold natToChars
    by_cases h : n < 10
    · rw [if_pos h]
      intro c hc
      simp only [List.mem_singleton] at hc
      subst hc
      exact digitChar_isDigit n h
    · rw [if_neg h]
      intro c hc
      rcases List.mem_append.mp hc with hc1 | hc2
      · exact ih (n / 10) (Nat.div_lt_self (by omega) (by omega)) c hc1
      · simp only [List.mem_singleton] at hc2
        subst hc2
        exact digitChar_isDigit (n % 10) (Nat.mod_lt n (by omega))

theorem digitsToNat_natToChars (n : Nat) :
    digitsToNat (natToChars n) = n := by
  induction n using Nat.strong_induction_on with
  | _ n ih =>
    unfold natToChars
    by_cases h : n < 10
    · rw [if_pos h]
      simp only [digitsToNat, List.foldl_cons, List.foldl_nil]
      rw [digitChar_toNat n h]
      omega
    · rw [if_neg h]
      simp only [digitsToNat, List.foldl_append, List.foldl_cons, List.foldl_nil]
      have hrec := ih (n / 10) (Nat.div_lt_self (by omega) (by omega))
      simp only [digitsToNat] at hrec
      rw [hrec, digitChar_toNat (n % 10) (Nat.mod_lt n (by omega))]
      omega

/-- A run satisfying `p` followed by input whose head refutes `p` splits a
`takeWhile`/`dropWhile` pair exactly at the boundary. -/
theorem takeWhile_dropWhile_all_append {α : Type} (p : α → Bool)
    (l r : List α) (hl : ∀ c ∈ l, p c = true)
    (hr : ∀ c, r.head? = some c → p c = false) :
    (l ++ r).takeWhile p = l ∧ (l ++ r).dropWhile p = r := by
  induction l with
  | nil =>
    simp only [List.nil_append]
    cases r with
    | nil => exact ⟨rfl, rfl⟩
    | cons c rest =>
      have := hr c rfl
      exact ⟨List.takeWhile_cons_of_neg (by simp [this]),
        List.dropWhile_cons_of_neg (by simp [this])⟩
  | cons a l' ih =>
    have ha := hl a (List.mem_cons_self a l')
    have ⟨ht, hd⟩ := ih (fun c hc => hl c (List.mem_cons_of_mem a hc))
    exact ⟨by rw [List.cons_append, List.takeWhile_cons_of_pos ha, ht],
      by rw [List.cons_append, List.dropWhile_cons_of_pos ha, hd]⟩

/-- A decimal digit is none of the characters that can begin a JSON
keyword, string, array, object or negative number. -/
theorem isDigit_not_value_start (c : Char) (h : c.isDigit = true) :
    c ≠ 'n' ∧ c ≠ 't' ∧ c ≠ 'f' ∧ c ≠ '"' ∧ c ≠ '[' ∧ c ≠ '{' ∧ c ≠ '-' ∧
      c ≠ ']' ∧ c ≠ '}' := by
  refine ⟨?_, ?_, ?_, ?_, ?_, ?_, ?_, ?_, ?_⟩ <;>
    · intro hc
      subst hc
      exact absurd h (by decide)

end Dbmap

namespace Dbmap

/-- Decoding inverts the encoder's string escaping: the decoded body is the
original characters and the input after the closing quote remains. -/
theorem parseStringBody_escString (s : List Char) :
    ∀ rest, parseStringBody (escString s ++ '"' :: rest) = some (s, rest) := by
  induction s with
  | nil =>
    intro rest
    simp +decide [escString, parseStringBody.eq_def]
  | cons c cs ih =>
    intro rest
    simp only [escString, List.flatMap_cons, List.append_assoc]
    simp only [escString] at ih
    by_cases h1 : c = '"'
    · subst h1
      simp +decide [escapeChar, parseStringBody, unescapeChar, ih rest]
    · by_cases h2 : c = '\\'
      · subst h2
        simp +decide [escapeChar, parseStringBody, unescapeChar, ih rest]
      · by_cases h3 : c = '\n'
        · subst h3
          simp +decide [escapeChar, parseStringBody, unescapeChar, ih rest]
        · by_cases h4 : c = '\r'
          · subst h4
            simp +decide [escapeChar, parseStringBody, unescapeChar, ih rest]
          · by_cases h5 : c = '\t'
            · subst h5
              simp +decide [escapeChar, parseStringBody, unescapeChar, ih rest]
            · by_cases h6 : c.toNat < 32
              · have hhi : c.toNat / 16 < 16 := by omega
                have hlo : c.toNat % 16 < 16 := Nat.mod_lt _ (by omega)
                have e1 : hexVal (hexDigitChar (c.toNat / 16)) =
                    some (c.toNat / 16) := hexVal_hexDigitChar _ hhi
                have e2 : hexVal (hexDigitChar (c.toNat % 16)) =
                    some (c.toNat % 16) := hexVal_hexDigitChar _ hlo
                have harith : 4096 * 0 + 256 * 0 + 16 * (c.toNat / 16) +
                    c.toNat % 16 = c.toNat := by omega
                have h0 : hexVal '0' = some 0 := by decide
                simp +decide [escapeChar, uEscape, h1, h2, h3, h4, h5, h6,
                  parseStringBody, h0, e1, e2, ih rest, harith]
                rw [Nat.div_add_mod]
                exact Char.ofNat_toNat c
              · by_cases h7 : c = '<' ∨ c = '>' ∨ c = '&'
                · rcases h7 with h7 | h7 | h7 <;>
                    · subst h7
                      simp +decide [escapeChar, uEscape, parseStringBody,
                        hexVal, hexDigitChar, ih rest]
                · by_cases h8 : c.toNat = 8232 ∨ c.toNat = 8233
                  · have hc : c = Char.ofNat c.toNat := (Char.ofNat_toNat c).symm
                    rcases h8 with h8 | h8 <;>
                      · rw [hc, h8]
                        simp +decide [escapeChar, parseStringBody, hexVal,
                          hexDigitChar, ih rest]
                  · simp only [escapeChar, if_neg h1, if_neg h2, if_neg h3,
                      if_neg h4, if_neg h5, if_neg h6, if_neg h7, if_neg h8,
                      List.cons_append, List.nil_append]
                    rw [parseStringBody.eq_def]
                    simp only [if_neg h1, if_neg h2]
                    rw [ih rest]
                    rfl

end Dbmap

namespace Dbmap

/-! Fuel each parsing function consumes on the corresponding encoding: the
parsers only spend fuel on entry, so any bound dominated by the text's
structure works; `decodeJSON` passes the input length plus one. -/

mutual

def jsizeV : JVal → Nat
  | .arr a => 1 + jsizeA a
  | .obj o => 1 + jsizeO o
  | _ => 1

def jsizeA : JArr → Nat
  | .nil => 1
  | .cons v rest => 1 + max (jsizeV v) (jsizeA rest)

def jsizeO : JObj → Nat
  | .nil => 1
  | .cons _ v rest => 1 + max (jsizeV v) (jsizeO rest)

end

theorem parseVal_num (n : Int) (fuel : Nat) (rest : List Char)
    (hrest : ∀ c, rest.head? = some c → c.isDigit = false) :
    parseVal (fuel + 1) (encNum n ++ rest) = some (.num n, rest) := by
  by_cases hneg : n < 0
  · obtain ⟨d, ds, hshape, hd⟩ := natToChars_shape n.natAbs
    have htd := takeWhile_dropWhile_all_append Char.isDigit
      (natToChars n.natAbs) rest (natToChars_all_digits n.natAbs) hrest
    have hne : ((natToChars n.natAbs ++ rest).takeWhile Char.isDigit).isEmpty
        = false := by
      rw [htd.1, hshape]
      rfl
    have hval : -((digitsToNat ((natToChars n.natAbs ++ rest).takeWhile
        Char.isDigit) : Nat) : Int) = n := by
      rw [htd.1, digitsToNat_natToChars]
      omega
    rw [encNum, if_pos hneg, List.cons_append]
    simp +decide only [parseVal]
    simp [hne, hval, htd.2]
  · obtain ⟨d, ds, hshape, hd⟩ := natToChars_shape n.toNat
    have hdig := digitChar_isDigit d hd
    obtain ⟨hn1, hn2, hn3, hn4, hn5, hn6, hn7, _, _⟩ :=
      isDigit_not_value_start _ hdig
    have htd := takeWhile_dropWhile_all_append Char.isDigit
      (natToChars n.toNat) rest (natToChars_all_digits n.toNat) hrest
    rw [encNum, if_neg hneg, hshape, List.cons_append]
    simp only [parseVal, hn1, hn2, hn3, hn4, hn5, hn6, hn7, hdig,
      if_false, if_true, ite_false, ite_true]
    rw [← List.cons_append, ← hshape, htd.1, htd.2, digitsToNat_natToChars]
    simp [Int.toNat_of_nonneg (by omega : 0 ≤ n)]

end Dbmap

namespace Dbmap

/-- Every encoded value starts with a character distinct from the
delimiters `]` and `}`, so the parsers' delimiter checks fall through to
the value alternative. -/
theorem encVal_head_shape (v : JVal) :
    ∃ c cs, encVal v = c :: cs ∧ c ≠ ']' ∧ c ≠ '}' := by
  cases v with
  | null =>
    exact ⟨'n', ['u', 'l', 'l'], by simp only [encVal], by decide, by decide⟩
  | bool b =>
    cases b with
    | true =>
      exact ⟨'t', ['r', 'u', 'e'], by simp only [encVal], by decide, by decide⟩
    | false =>
      exact ⟨'f', ['a', 'l', 's', 'e'], by simp only [encVal], by decide,
        by decide⟩
  | num n =>
    by_cases hneg : n < 0
    · exact ⟨'-', natToChars n.natAbs,
        by simp [encVal, encNum, if_pos hneg], by decide, by decide⟩
    · obtain ⟨d, ds, hshape, hd⟩ := natToChars_shape n.toNat
      obtain ⟨_, _, _, _, _, _, _, hne1, hne2⟩ :=
        isDigit_not_value_start _ (digitChar_isDigit d hd)
      exact ⟨digitChar d, ds,
        by simp [encVal, encNum, if_neg hneg, hshape], hne1, hne2⟩
  | str s =>
    exact ⟨'"', escString s.data ++ ['"'], by simp [encVal], by decide, by decide⟩
  | arr a => exact ⟨'[', encArrBody a, by simp [encVal], by decide, by decide⟩
  | obj o => exact ⟨'{', encObjBody o, by simp [encVal], by decide, by decide⟩

/-- An array continuation starts with `,` or `]` — never a digit. -/
theorem encArrRest_head (a : JArr) :
    ∃ c cs, encArrRest a = c :: cs ∧ c.isDigit = false := by
  cases a with
  | nil => exact ⟨']', [], by simp [encArrRest], by decide⟩
  | cons v rest =>
    exact ⟨',', encVal v ++ encArrRest rest, by simp [encArrRest], by decide⟩

/-- An object continuation starts with `,` or `}` — never a digit. -/
theorem encObjRest_head (o : JObj) :
    ∃ c cs, encObjRest o = c :: cs ∧ c.isDigit = false := by
  cases o with
  | nil => exact ⟨'}', [], by simp [encObjRest], by decide⟩
  | cons k v rest =>
    exact ⟨',', '"' :: (escString k.data ++ '"' :: ':' ::
      (encVal v ++ encObjRest rest)), by simp [encObjRest], by decide⟩

/-- `noDigitHead l`: the first character of `l`, if any, is not a digit
(so a preceding number's maximal digit run cannot absorb it). -/
def noDigitHead (l : List Char) : Prop :=
  ∀ c, l.head? = some c → c.isDigit = false

theorem noDigitHead_of_shape {l : List Char} {c : Char} {cs : List Char}
    (h : l = c :: cs) (hc : c.isDigit = false) : noDigitHead l := by
  intro c' hc'
  rw [h] at hc'
  simp only [List.head?_cons, Option.some_inj] at hc'
  subst hc'
  exact hc

end Dbmap

namespace Dbmap

mutual

/-- Parsing inverts the encoder on every JSON value, leaving the rest of
the input (whose head must not extend a number's digit run) untouched. -/
theorem parseVal_encVal : ∀ (v : JVal) (fuel : Nat) (rest : List Char),
    jsizeV v ≤ fuel → noDigitHead rest →
    parseVal fuel (encVal v ++ rest) = some (v, rest)
  | .null, fuel, rest, hfuel, _ => by
    have h1 : 1 ≤ fuel := le_trans (by simp [jsizeV]) hfuel
    obtain ⟨f, rfl⟩ : ∃ f, fuel = f + 1 := ⟨fuel - 1, by omega⟩
    rw [show encVal .null = ['n', 'u', 'l', 'l'] by simp only [encVal]]
    simp +decide [parseVal]
  | .bool true, fuel, rest, hfuel, _ => by
    have h1 : 1 ≤ fuel := le_trans (by simp [jsizeV]) hfuel
    obtain ⟨f, rfl⟩ : ∃ f, fuel = f + 1 := ⟨fuel - 1, by omega⟩
    rw [show encVal (.bool true) = ['t', 'r', 'u', 'e'] by simp only [encVal]]
    simp +decide [parseVal]
  | .bool false, fuel, rest, hfuel, _ => by
    have h1 : 1 ≤ fuel := le_trans (by simp [jsizeV]) hfuel
    obtain ⟨f, rfl⟩ : ∃ f, fuel = f + 1 := ⟨fuel - 1, by omega⟩
    rw [show encVal (.bool false) = ['f', 'a', 'l', 's', 'e'] by
      simp only [encVal]]
    simp +decide [parseVal]
  | .num n, fuel, rest, hfuel, hrest => by
    have h1 : 1 ≤ fuel := le_trans (by simp [jsizeV]) hfuel
    obtain ⟨f, rfl⟩ : ∃ f, fuel = f + 1 := ⟨fuel - 1, by omega⟩
    rw [show encVal (.num n) = encNum n by simp [encVal]]
    exact parseVal_num n f rest hrest
  | .str s, fuel, rest, hfuel, _ => by
    have h1 : 1 ≤ fuel := le_trans (by simp [jsizeV]) hfuel
    obtain ⟨f, rfl⟩ : ∃ f, fuel = f + 1 := ⟨fuel - 1, by omega⟩
    rw [show encVal (.str s) = '"' :: (escString s.data ++ ['"']) by
      simp [encVal]]
    rw [List.cons_append, List.append_assoc, List.singleton_append]
    simp +decide only [parseVal]
    rw [parseStringBody_escString s.data rest]
    rfl
  | .arr a, fuel, rest, hfuel, _ => by
    have h2 : 1 + jsizeA a ≤ fuel := le_trans (by simp [jsizeV]) hfuel
    obtain ⟨f, rfl⟩ : ∃ f, fuel = f + 1 := ⟨fuel - 1, by omega⟩
    rw [show encVal (.arr a) = '[' :: encArrBody a by simp [encVal],
      List.cons_append]
    simp +decide only [parseVal]
    exact parseArrBody_encArrBody a f rest (by omega)
  | .obj o, fuel, rest, hfuel, _ => by
    have h2 : 1 + jsizeO o ≤ fuel := le_trans (by simp [jsizeV]) hfuel
    obtain ⟨f, rfl⟩ : ∃ f, fuel = f + 1 := ⟨fuel - 1, by omega⟩
    rw [show encVal (.obj o) = '{' :: encObjBody o by simp [encVal],
      List.cons_append]
    simp +decide only [parseVal]
    exact parseObjBody_encObjBody o f rest (by omega)

theorem parseArrBody_encArrBody : ∀ (a : JArr) (fuel : Nat) (rest : List Char),
    jsizeA a ≤ fuel → parseArrBody fuel (encArrBody a ++ rest) = some (.arr a, rest)
  | .nil, fuel, rest, hfuel => by
    have h1 : 1 ≤ fuel := le_trans (by simp [jsizeA]) hfuel
    obtain ⟨f, rfl⟩ : ∃ f, fuel = f + 1 := ⟨fuel - 1, by omega⟩
    rw [show encArrBody .nil = [']'] by simp [encArrBody]]
    simp +decide [parseArrBody]
  | .cons v vs, fuel, rest, hfuel => by
    have hb : 1 + max (jsizeV v) (jsizeA vs) ≤ fuel :=
      le_trans (by simp [jsizeA]) hfuel
    obtain ⟨f, rfl⟩ : ∃ f, fuel = f + 1 := ⟨fuel - 1, by omega⟩
    obtain ⟨c, cs, hvc, hne1, _⟩ := encVal_head_shape v
    obtain ⟨c2, cs2, hvc2, hdig2⟩ := encArrRest_head vs
    have hdr : noDigitHead (encArrRest vs ++ rest) :=
      noDigitHead_of_shape (by rw [hvc2]; rfl) hdig2
    rw [show encArrBody (.cons v vs) = encVal v ++ encArrRest vs by
      simp [encArrBody]]
    rw [List.append_assoc, hvc, List.cons_append]
    simp +decide only [parseArrBody]
    rw [if_neg (by simpa using hne1)]
    rw [← List.cons_append, ← hvc]
    rw [parseVal_encVal v f (encArrRest vs ++ rest) (by omega) hdr]
    simp [parseArrRest_encArrRest vs f rest (by omega)]

theorem parseArrRest_encArrRest : ∀ (a : JArr) (fuel : Nat) (rest : List Char),
    jsizeA a ≤ fuel → parseArrRest fuel (encArrRest a ++ rest) = some (a, rest)
  | .nil, fuel, rest, hfuel => by
    have h1 : 1 ≤ fuel := le_trans (by simp [jsizeA]) hfuel
    obtain ⟨f, rfl⟩ : ∃ f, fuel = f + 1 := ⟨fuel - 1, by omega⟩
    rw [show encArrRest .nil = [']'] by simp [encArrRest]]
    simp +decide [parseArrRest]
  | .cons v vs, fuel, rest, hfuel => by
    have hb : 1 + max (jsizeV v) (jsizeA vs) ≤ fuel :=
      le_trans (by simp [jsizeA]) hfuel
    obtain ⟨f, rfl⟩ : ∃ f, fuel = f + 1 := ⟨fuel - 1, by omega⟩
    obtain ⟨c2, cs2, hvc2, hdig2⟩ := encArrRest_head vs
    have hdr : noDigitHead (encArrRest vs ++ rest) :=
      noDigitHead_of_shape (by rw [hvc2]; rfl) hdig2
    rw [show encArrRest (.cons v vs) = ',' :: (encVal v ++ encArrRest vs) by
      simp [encArrRest]]
    rw [List.cons_append, List.append_assoc]
    simp +decide only [parseArrRest]
    rw [parseVal_encVal v f (encArrRest vs ++ rest) (by omega) hdr]
    simp [parseArrRest_encArrRest vs f rest (by omega)]

theorem parseObjBody_encObjBody : ∀ (o : JObj) (fuel : Nat) (rest : List Char),
    jsizeO o ≤ fuel → parseObjBody fuel (encObjBody o ++ rest) = some (.obj o, rest)
  | .nil, fuel, rest, hfuel => by
    have h1 : 1 ≤ fuel := le_trans (by simp [jsizeO]) hfuel
    obtain ⟨f, rfl⟩ : ∃ f, fuel = f + 1 := ⟨fuel - 1, by omega⟩
    rw [show encObjBody .nil = ['}'] by simp [encObjBody]]
    simp +decide [parseObjBody]
  | .cons k v vs, fuel, rest, hfuel => by
    have hb : 1 + max (jsizeV v) (jsizeO vs) ≤ fuel :=
      le_trans (by simp [jsizeO]) hfuel
    obtain ⟨f, rfl⟩ : ∃ f, fuel = f + 1 := ⟨fuel - 1, by omega⟩
    obtain ⟨c2, cs2, hvc2, hdig2⟩ := encObjRest_head vs
    have hdr : noDigitHead (encObjRest vs ++ rest) :=
      noDigitHead_of_shape (by rw [hvc2]; rfl) hdig2
    rw [show encObjBody (.cons k v vs) =
      '"' :: (escString k.data ++ '"' :: ':' :: (encVal v ++ encObjRest vs)) by
      simp [encObjBody]]
    rw [List.cons_append]
    simp +decide only [parseObjBody]
    rw [show escString k.data ++ '"' :: ':' :: (encVal v ++ encObjRest vs)
        ++ rest = escString k.data ++ '"' ::
        (':' :: (encVal v ++ (encObjRest vs ++ rest))) by
      simp [List.append_assoc]]
    rw [parseStringBody_escString k.data]
    simp [parseVal_encVal v f (encObjRest vs ++ rest) (by omega) hdr,
      parseObjRest_encObjRest vs f rest (by omega)]

theorem parseObjRest_encObjRest : ∀ (o : JObj) (fuel : Nat) (rest : List Char),
    jsizeO o ≤ fuel → parseObjRest fuel (encObjRest o ++ rest) = some (o, rest)
  | .nil, fuel, rest, hfuel => by
    have h1 : 1 ≤ fuel := le_trans (by simp [jsizeO]) hfuel
    obtain ⟨f, rfl⟩ : ∃ f, fuel = f + 1 := ⟨fuel - 1, by omega⟩
    rw [show encObjRest .nil = ['}'] by simp [encObjRest]]
    simp +decide [parseObjRest]
  | .cons k v vs, fuel, rest, hfuel => by
    have hb : 1 + max (jsizeV v) (jsizeO vs) ≤ fuel :=
      le_trans (by simp [jsizeO]) hfuel
    obtain ⟨f, rfl⟩ : ∃ f, fuel = f + 1 := ⟨fuel - 1, by omega⟩
    obtain ⟨c2, cs2, hvc2, hdig2⟩ := encObjRest_head vs
    have hdr : noDigitHead (encObjRest vs ++ rest) :=
      noDigitHead_of_shape (by rw [hvc2]; rfl) hdig2
    rw [show encObjRest (.cons k v vs) =
      ',' :: '"' :: (escString k.data ++ '"' :: ':' :: (encVal v ++ encObjRest vs)) by
      simp [encObjRest]]
    rw [List.cons_append, List.cons_append]
    simp +decide only [parseObjRest]
    rw [show escString k.data ++ '"' :: ':' :: (encVal v ++ encObjRest vs)
        ++ rest = escString k.data ++ '"' ::
        (':' :: (encVal v ++ (encObjRest vs ++ rest))) by
      simp [List.append_assoc]]
    rw [parseStringBody_escString k.data]
    simp [parseVal_encVal v f (encObjRest vs ++ rest) (by omega) hdr,
      parseObjRest_encObjRest vs f rest (by omega)]

end

end Dbmap

namespace Dbmap

theorem encVal_length_pos (v : JVal) : 1 ≤ (encVal v).length := by
  obtain ⟨c, cs, h, _, _⟩ := encVal_head_shape v
  simp [h]

theorem encArrRest_length_pos (a : JArr) : 1 ≤ (encArrRest a).length := by
  obtain ⟨c, cs, h, _⟩ := encArrRest_head a
  simp [h]

theorem encObjRest_length_pos (o : JObj) : 1 ≤ (encObjRest o).length := by
  obtain ⟨c, cs, h, _⟩ := encObjRest_head o
  simp [h]

theorem encArrBody_length_pos (a : JArr) : 1 ≤ (encArrBody a).length := by
  cases a with
  | nil => simp [encArrBody]
  | cons v vs =>
    have := encVal_length_pos v
    simp only [encArrBody, List.length_append]
    omega

theorem encObjBody_length_pos (o : JObj) : 1 ≤ (encObjBody o).length := by
  cases o with
  | nil => simp [encObjBody]
  | cons k v vs =>
    simp [encObjBody]

mutual

/-- The fuel a value's parse needs is dominated by its encoding's length
(plus one), which is what `decodeJSON` supplies. -/
theorem jsizeV_le (v : JVal) : jsizeV v ≤ (encVal v).length + 1 := by
  cases v with
  | null => simp [jsizeV, encVal]
  | bool b => cases b <;> simp [jsizeV, encVal]
  | num n => simp [jsizeV]
  | str s => simp [jsizeV]
  | arr a =>
    have h1 := jsizeA_le_body a
    have := encArrBody_length_pos a
    simp only [jsizeV, encVal, List.length_cons]
    omega
  | obj o =>
    have h1 := jsizeO_le_body o
    have := encObjBody_length_pos o
    simp only [jsizeV, encVal, List.length_cons]
    omega

theorem jsizeA_le_body (a : JArr) : jsizeA a ≤ (encArrBody a).length + 1 := by
  cases a with
  | nil => simp [jsizeA, encArrBody]
  | cons v vs =>
    have h1 := jsizeV_le v
    have h2 := jsizeA_le_rest vs
    have h3 := encVal_length_pos v
    have h4 := encArrRest_length_pos vs
    simp only [jsizeA, encArrBody, List.length_append]
    omega

theorem jsizeA_le_rest (a : JArr) : jsizeA a ≤ (encArrRest a).length + 1 := by
  cases a with
  | nil => simp [jsizeA, encArrRest]
  | cons v vs =>
    have h1 := jsizeV_le v
    have h2 := jsizeA_le_rest vs
    have h3 := encVal_length_pos v
    have h4 := encArrRest_length_pos vs
    simp only [jsizeA, encArrRest, List.length_cons, List.length_append]
    omega

theorem jsizeO_le_body (o : JObj) : jsizeO o ≤ (encObjBody o).length + 1 := by
  cases o with
  | nil => simp [jsizeO, encObjBody]
  | cons k v vs =>
    have h1 := jsizeV_le v
    have h2 := jsizeO_le_rest vs
    have h3 := encVal_length_pos v
    have h4 := encObjRest_length_pos vs
    simp only [jsizeO, encObjBody, List.length_cons, List.length_append]
    omega

theorem jsizeO_le_rest (o : JObj) : jsizeO o ≤ (encObjRest o).length + 1 := by
  cases o with
  | nil => simp [jsizeO, encObjRest]
  | cons k v vs =>
    have h1 := jsizeV_le v
    have h2 := jsizeO_le_rest vs
    have h3 := encVal_length_pos v
    have h4 := encObjRest_length_pos vs
    simp only [jsizeO, encObjRest, List.length_cons, List.length_append]
    omega

end

end Dbmap

namespace Dbmap

/-- C8: encoding a string-keyed mapping with the converter's
value-production direction (`jsonScanner.Value`) and decoding the produced
text back with its scan direction (`jsonScanner.Scan`) yields the original
mapping. -/
theorem jsonScanner_roundtrip (o : JObj) :
    jsonScannerScan (.str (jsonScannerValue o)) = .ok o := by
  have hshape : encVal (.obj o) = '{' :: encObjBody o := by simp [encVal]
  have hl : (encVal (.obj o) ++ ['\n']).dropWhile isJSONSpace =
      encVal (.obj o) ++ ['\n'] := by
    rw [hshape, List.cons_append]
    exact List.dropWhile_cons_of_neg (by decide)
  have hfuel : jsizeV (.obj o) ≤ (encVal (.obj o) ++ ['\n']).length + 1 := by
    have h1 := jsizeV_le (.obj o)
    simp only [List.length_append, List.length_cons, List.length_nil] at h1 ⊢
    omega
  have hnd : noDigitHead ['\n'] := by
    intro c hc
    simp only [List.head?_cons, Option.some_inj] at hc
    subst hc
    decide
  have hparse := parseVal_encVal (.obj o)
    ((encVal (.obj o) ++ ['\n']).length + 1) ['\n'] hfuel hnd
  show decodeJSON (encVal (.obj o) ++ ['\n']) = .ok o
  unfold decodeJSON
  simp only [hl, hparse]

end Dbmap

namespace Dbmap

/-- The model computes: the converter's two directions on the concrete
mapping `{"foo": "bar"}` (the value the repository's JSON tests scan). -/
theorem jsonScanner_concrete_example :
    jsonScannerValue (.cons "foo" (.str "bar") .nil) =
      "\x7b\"foo\":\"bar\"\x7d\n" ∧
    jsonScannerScan (.str "\x7b\"foo\":\"bar\"\x7d\n") =
      .ok (.cons "foo" (.str "bar") .nil) := by
  constructor
  · simp +decide [jsonScannerValue, encVal, encObjBody, encObjRest, escString,
      escapeChar]
  · rfl

end Dbmap
